import Mathlib

/-!
# Verification of the Jira server client and the OAuth1a completion handler

A shallow embedding of `server/client_server.go` (creation-metadata retrieval for a
self-hosted Jira deployment) and of `server/user_server.go` (completion of the OAuth1a
handshake), followed by theorems about the embedded functions.

Everything a function reads from outside its own file (answers of the Jira deployment,
SDK helpers, plugin collaborators) is a field of an environment record.  Every outgoing
call is appended to an explicit log that is threaded through the functions, and the
answers may depend on the log so far, so that a deployment may answer the same request
differently at different moments.
-/

namespace JiraPlugin

/-! ## Go errors -/

/-- Go `error` values: `new` is `errors.New`, `errors.Errorf` or any error produced by a
collaborator, `withMessage` is the annotation added by `errors.WithMessage` and
`errors.Wrap` of `github.com/pkg/errors`, `rest` is the plugin's `RESTError` struct (an
embedded error together with a status code). -/
inductive GoError where
  | new (msg : String)
  | withMessage (cause : GoError) (msg : String)
  | rest (err : GoError) (StatusCode : Int)
  deriving DecidableEq, Repr

/-- The method `Error()`: an annotated error prints `msg: cause`, a `RESTError` prints
its embedded error. -/
def GoError.Error : GoError → String
  | .new msg => msg
  | .withMessage cause msg => msg ++ ": " ++ cause.Error
  | .rest err _ => err.Error

/-- The function `errors.WithMessage(err, message)` of `github.com/pkg/errors`: it
returns nil when `err` is nil. -/
def errorsWithMessage : Option GoError → String → Option GoError
  | none, _ => none
  | some err, message => some (GoError.withMessage err message)

/-- The function `errors.Wrap(err, message)` of `github.com/pkg/errors`: it returns nil
when `err` is nil; the stack it records is not modelled. -/
def errorsWrap : Option GoError → String → Option GoError
  | none, _ => none
  | some err, message => some (GoError.withMessage err message)

/-! ## Semantic versions (`github.com/blang/semver/v4`) -/

/-- One dot-separated pre-release identifier: numeric or alphanumeric. -/
structure PRVersion where
  VersionStr : String
  VersionNum : Nat
  IsNum : Bool
  deriving DecidableEq, Repr

/-- A parsed semantic version; build metadata takes no part in comparisons. -/
structure Version where
  Major : Nat
  Minor : Nat
  Patch : Nat
  Pre : List PRVersion
  Build : List String
  deriving DecidableEq, Repr

/-- The method `PRVersion.Compare`: numeric identifiers sort below alphanumeric ones. -/
def PRVersion.Compare (v o : PRVersion) : Int :=
  if v.IsNum && !o.IsNum then -1
  else if !v.IsNum && o.IsNum then 1
  else if v.IsNum && o.IsNum then
    if v.VersionNum = o.VersionNum then 0
    else if v.VersionNum > o.VersionNum then 1
    else -1
  else
    if v.VersionStr = o.VersionStr then 0
    else if v.VersionStr > o.VersionStr then 1
    else -1

/-- The loop of `Version.Compare` over the common positions of two pre-release lists,
with the final comparison of their lengths. -/
def comparePre : List PRVersion → List PRVersion → Int
  | [], [] => 0
  | [], _ :: _ => -1
  | _ :: _, [] => 1
  | a :: as, b :: bs =>
    let comp := a.Compare b
    if comp = 0 then comparePre as bs
    else if comp = 1 then 1
    else -1

/-- The method `Version.Compare`: major, minor, patch, then pre-release; a version
without pre-release is above the same version with one. -/
def Version.Compare (v o : Version) : Int :=
  if v.Major ≠ o.Major then (if v.Major > o.Major then 1 else -1)
  else if v.Minor ≠ o.Minor then (if v.Minor > o.Minor then 1 else -1)
  else if v.Patch ≠ o.Patch then (if v.Patch > o.Patch then 1 else -1)
  else if v.Pre.length = 0 ∧ o.Pre.length = 0 then 0
  else if v.Pre.length = 0 ∧ o.Pre.length > 0 then 1
  else if v.Pre.length > 0 ∧ o.Pre.length = 0 then -1
  else comparePre v.Pre o.Pre

/-- The method `Version.LT`. -/
def Version.LT (v o : Version) : Bool :=
  decide (v.Compare o = -1)

/-! ## Data of the Jira SDK (`github.com/andygrunwald/go-jira`) -/

/-- The part of `jira.Response` the client reads. -/
structure Response where
  StatusCode : Int
  deriving DecidableEq, Repr

/-- The struct `jira.GetQueryOptions`. -/
structure GetQueryOptions where
  Fields : String
  Expand : String
  UpdateHistory : Bool
  ProjectKeys : String
  deriving DecidableEq, Repr

/-- A value decoded from JSON into an `interface{}`; numbers, arrays and objects are kept
as `raw` text since only their printing by `fmt` is ever used. -/
inductive JSONValue where
  | null
  | bool (b : Bool)
  | str (s : String)
  | raw (text : String)
  deriving DecidableEq, Repr

/-- A Go `map[string]T`, kept as an association list whose keys are distinct. -/
abbrev GoMap (α : Type) := List (String × α)

/-- The expression `m[k]` with the presence flag. -/
def GoMap.get {α : Type} (m : GoMap α) (k : String) : Option α :=
  List.lookup k m

/-- The assignment `m[k] = v`: an existing entry for `k` is replaced. -/
def GoMap.set {α : Type} (m : GoMap α) (k : String) (v : α) : GoMap α :=
  (k, v) :: m.filter (fun e => e.1 != k)

/-- The keys present in the map. -/
def GoMap.keys {α : Type} (m : GoMap α) : List String :=
  m.map Prod.fst

/-- One entry of a field listing: `map[string]interface{}`. -/
abbrev FieldValue := GoMap JSONValue

/-- The struct `jira.MetaIssueType`; `Fields` is nil until it is assigned. -/
structure MetaIssueType where
  Self : String
  Id : String
  Description : String
  IconUrl : String
  Name : String
  Subtasks : Bool
  Expand : String
  Fields : Option (GoMap FieldValue)
  deriving DecidableEq, Repr

/-- The struct `jira.MetaProject`. -/
structure MetaProject where
  Expand : String
  Self : String
  Id : String
  Key : String
  Name : String
  IssueTypes : List MetaIssueType
  deriving DecidableEq, Repr

/-- The struct `jira.CreateMetaInfo`. -/
structure CreateMetaInfo where
  Expand : String
  Projects : List MetaProject
  deriving DecidableEq, Repr

/-- One element of `jira.ProjectList` (the fields the client copies). -/
structure Project where
  Expand : String
  Self : String
  ID : String
  Key : String
  Name : String
  deriving DecidableEq, Repr

/-! ## Data of `client_server.go` -/

/-- The struct `ProjectIssueInfo`.  The Go slice holds pointers; the elements are taken
to be non-nil, as JSON decoding of a list of objects produces them. -/
structure ProjectIssueInfo where
  Values : List MetaIssueType
  deriving DecidableEq, Repr

/-- The struct `FieldInfo`. -/
structure FieldInfo where
  Values : List FieldValue
  deriving DecidableEq, Repr

/-- The struct `JiraServerVersionInfo`. -/
structure JiraServerVersionInfo where
  Version : String
  deriving DecidableEq, Repr

def APIEndpointGetServerInfo : String := "rest/api/2/serverInfo"

def APIEndpointCreateIssueMeta : String := "rest/api/2/issue/createmeta/"

def JiraVersionWithOldIssueAPIBreaking : String := "9.0.0"

def QueryParamIssueTypes : String := "issueTypes"

/-- The version 9.0.0 that `semver.Make` gives for `JiraVersionWithOldIssueAPIBreaking`. -/
def pivot900 : Version := { Major := 9, Minor := 0, Patch := 0, Pre := [], Build := [] }

/-- A call leaving the client towards the deployment: the three requests sent with
`client.Jira.Do` and the two SDK services `Issue.GetCreateMetaWithOptions` and
`Project.ListWithOptions`. -/
inductive Call where
  | serverInfo
  | createMeta (options : Option GetQueryOptions)
  | listProjects (options : GetQueryOptions)
  | issueTypes (projectID : String)
  | fields (projectID : String) (issueTypeID : String)
  deriving DecidableEq, Repr

/-- What `client.Jira.Do(req, target)` leaves behind: the decoded target, the response and
the error. -/
structure DoResult (α : Type) where
  value : α
  resp : Option Response
  err : Option GoError

/-- Everything `client_server.go` obtains from outside the file.  The answers of the
deployment take the log of the calls issued so far. -/
structure Env where
  /-- The error of `client.Jira.NewRequest(http.MethodGet, endpoint, nil)`, if any. -/
  newRequest : String → Option GoError
  doServerInfo : List Call → DoResult JiraServerVersionInfo
  doIssueTypes : List Call → String → DoResult ProjectIssueInfo
  doFields : List Call → String → String → DoResult FieldInfo
  /-- The SDK service `client.Jira.Issue.GetCreateMetaWithOptions`. -/
  getCreateMetaWithOptions :
    List Call → Option GetQueryOptions → Option CreateMetaInfo × Option Response × Option GoError
  /-- The SDK service `client.Jira.Project.ListWithOptions`. -/
  listWithOptions :
    List Call → GetQueryOptions → Option (List Project) × Option Response × Option GoError
  /-- The plugin helper `userFriendlyJiraError`, defined in another file; it is given a
  non-nil error and returns one. -/
  userFriendlyJiraError : Option Response → GoError → GoError
  /-- The parser `semver.Make`. -/
  semverMake : String → Except GoError Version
  /-- The printing `fmt.Sprintf("%v", x)` of an `interface{}` (nil when `none`). -/
  sprintV : Option JSONValue → String

/-! ## The functions of `client_server.go` -/

/-- Lines 95-98 of `GetProjectInfoForPivotJiraVersion`: the field entries are written
into a fresh map under their printed `fieldId`. -/
def buildFieldMap (env : Env) (values : List FieldValue) : GoMap FieldValue :=
  values.foldl (fun fieldMap fieldValue =>
    fieldMap.set (env.sprintV (fieldValue.get "fieldId")) fieldValue) []

/-- The method `jiraServerClient.GetIssueInfo`; the last component is the call log. -/
def GetIssueInfo (env : Env) (projectID : String) (log : List Call) :
    Option ProjectIssueInfo × Option Response × Option GoError × List Call :=
  let apiEndpoint := APIEndpointCreateIssueMeta ++ projectID ++ "/issuetypes"
  match env.newRequest apiEndpoint with
  | some err => (none, none, some err, log)
  | none =>
    let r := env.doIssueTypes log projectID
    (some r.value, r.resp, r.err, log ++ [Call.issueTypes projectID])

/-- Lines 185-188 of `ListProjects`: the query options handed to the SDK. -/
def listQueryOptions (expandIssueTypes : Bool) : GetQueryOptions :=
  { Fields := "", Expand := if expandIssueTypes then QueryParamIssueTypes else "",
    UpdateHistory := false, ProjectKeys := "" }

/-- The method `jiraServerClient.ListProjects`; the query string is not used by it. -/
def ListProjects (env : Env) (_query : String) (limit : Int) (expandIssueTypes : Bool)
    (log : List Call) : List Project × Option Response × Option GoError × List Call :=
  let queryOptions := listQueryOptions expandIssueTypes
  let log1 := log ++ [Call.listProjects queryOptions]
  match env.listWithOptions log queryOptions with
  | (_, resp, some err) => ([], resp, some (env.userFriendlyJiraError resp err), log1)
  | (none, resp, none) => ([], resp, none, log1)
  | (some pList, resp, none) =>
    let result := pList
    let result :=
      if limit > 0 ∧ (result.length : Int) > limit then result.take limit.toNat else result
    (result, resp, none, log1)

/-- The endpoint of line 83 for the field listing of one issue type. -/
def fieldsEndpoint (projID issueTypeID : String) : String :=
  APIEndpointCreateIssueMeta ++ projID ++ "/issuetypes/" ++ issueTypeID

/-- The variables that the loops of `GetProjectInfoForPivotJiraVersion` share. -/
structure LoopState where
  resp : Option Response
  err : Option GoError
  log : List Call

/-- The inner loop (lines 82-100) over the issue types of one project.  It returns the
issue types as the loop leaves them (the loop writes `Fields` through the pointers held
in `issueInfo.Values`) and the shared variables.  Each `break` leaves this loop only. -/
def issueTypeLoop (env : Env) (projID : String) :
    List MetaIssueType → LoopState → List MetaIssueType × LoopState
  | [], s => ([], s)
  | issueType :: rest, s =>
    let apiEndpoint := fieldsEndpoint projID issueType.Id
    match env.newRequest apiEndpoint with
    | some err => (issueType :: rest, { s with err := some err })
    | none =>
      let r := env.doFields s.log projID issueType.Id
      let s1 : LoopState :=
        { resp := r.resp, err := r.err, log := s.log ++ [Call.fields projID issueType.Id] }
      match r.err with
      | some _ => (issueType :: rest, s1)
      | none =>
        let fieldMap := buildFieldMap env r.value.Values
        let issueType1 := { issueType with Fields := some fieldMap }
        let (rest1, s2) := issueTypeLoop env projID rest s1
        (issueType1 :: rest1, s2)

/-- Lines 101-108: the `jira.MetaProject` assembled for a listed project from the issue
types as the inner loop left them. -/
def assembleProject (proj : Project) (issueTypes : List MetaIssueType) : MetaProject :=
  { Expand := proj.Expand, Self := proj.Self, Id := proj.ID, Key := proj.Key,
    Name := proj.Name, IssueTypes := issueTypes }

/-- The outer loop (lines 75-111) over the listed projects, on the result under
construction and the shared variables. -/
def projectLoop (env : Env) : List Project → CreateMetaInfo × LoopState → CreateMetaInfo × LoopState
  | [], ms => ms
  | proj :: rest, (m, s) =>
    let m1 : CreateMetaInfo := { m with Expand := proj.Expand }
    match GetIssueInfo env proj.ID s.log with
    | (_, resp, some err, log1) => (m1, { resp := resp, err := some err, log := log1 })
    | (none, resp, none, log1) =>
      -- not reached: `GetIssueInfo` returns a non-nil pointer whenever its error is nil
      (m1, { resp := resp, err := none, log := log1 })
    | (some issueInfo, resp, none, log1) =>
      let (values, s1) :=
        issueTypeLoop env proj.ID issueInfo.Values { resp := resp, err := none, log := log1 }
      let project := assembleProject proj values
      projectLoop env rest ({ m1 with Projects := m1.Projects ++ [project] }, s1)

/-- The listing entry a result project was assembled from (lines 101-108 read
backwards): `Expand`, `Self`, `Id`, `Key` and `Name`. -/
def MetaProject.toProject (p : MetaProject) : Project :=
  { Expand := p.Expand, Self := p.Self, ID := p.Id, Key := p.Key, Name := p.Name }

/-- An issue type with its `Fields` cleared: what the listing said of it apart from the
map that the aggregation writes. -/
def MetaIssueType.withoutFields (it : MetaIssueType) : MetaIssueType :=
  { it with Fields := none }

/-- The requests the specification counts for one project: its issue-type listing and one
field listing for each issue type that listing returned. -/
def projectCalls (proj : Project) (values : List MetaIssueType) : List Call :=
  Call.issueTypes proj.ID :: values.map (fun it => Call.fields proj.ID it.Id)

/-- The issue types returned for each listed project, in the words of the specification:
the issue-type listing of a project is answered on the log that holds the requests
counted for the projects before it. -/
def listedIssueTypes (env : Env) : List Project → List Call → List (List MetaIssueType)
  | [], _ => []
  | proj :: rest, log =>
    (env.doIssueTypes log proj.ID).value.Values ::
      listedIssueTypes env rest
        (log ++ projectCalls proj (env.doIssueTypes log proj.ID).value.Values)

/-- The requests the specification counts for the listed projects, given the issue types
returned for each. -/
def aggregationCalls : List Project → List (List MetaIssueType) → List Call
  | proj :: rest, values :: more => projectCalls proj values ++ aggregationCalls rest more
  | _, _ => []

/-- The method `jiraServerClient.GetProjectInfoForPivotJiraVersion`. -/
def GetProjectInfoForPivotJiraVersion (env : Env) (_options : Option GetQueryOptions)
    (log : List Call) :
    Option CreateMetaInfo × Option Response × Option GoError × List Call :=
  match ListProjects env "" (-1) false log with
  | (_, resp, some err, log1) => (none, resp, errorsWrap (some err) "failed to list projects", log1)
  | (projectList, resp, none, log1) =>
    let m : CreateMetaInfo := { Expand := "", Projects := [] }
    let (m1, s) := projectLoop env projectList (m, { resp := resp, err := none, log := log1 })
    (some m1, s.resp, none, s.log)

/-- The method `jiraServerClient.GetProjectInfo`. -/
def GetProjectInfo (env : Env) (currentVersion pivotVersion : Version)
    (options : Option GetQueryOptions) (log : List Call) :
    Option CreateMetaInfo × Option Response × Option GoError × List Call :=
  if currentVersion.LT pivotVersion then
    match env.getCreateMetaWithOptions log options with
    | (info, resp, err) => (info, resp, err, log ++ [Call.createMeta options])
  else
    GetProjectInfoForPivotJiraVersion env options log

def StatusUnauthorized : Int := 401

def StatusForbidden : Int := 403

def StatusInternalServerError : Int := 500

/-- The method `jiraServerClient.GetCreateMetaInfo`; closing the response body is not
modelled. -/
def GetCreateMetaInfo (env : Env) (options : Option GetQueryOptions) (log : List Call) :
    Option CreateMetaInfo × Option GoError × List Call :=
  match env.newRequest APIEndpointGetServerInfo with
  | some err => (none, some err, log)
  | none =>
    let r := env.doServerInfo log
    let log1 := log ++ [Call.serverInfo]
    match r.err with
    | some err => (none, errorsWrap (some err) "failed to fetch Jira server version", log1)
    | none =>
      match env.semverMake r.value.Version with
      | .error err => (none, errorsWrap (some err) "error while parsing version", log1)
      | .ok currentVersion =>
        match env.semverMake JiraVersionWithOldIssueAPIBreaking with
        | .error err => (none, errorsWrap (some err) "error while parsing version", log1)
        | .ok pivotVersion =>
          match GetProjectInfo env currentVersion pivotVersion options log1 with
          | (_, none, some err, log2) => (none, some err, log2)
          | (_, some resp, some err, log2) =>
            let err1 :=
              if resp.StatusCode = StatusForbidden ∨ resp.StatusCode = StatusUnauthorized then
                GoError.new "not authorized to create issues"
              else err
            (none, some (GoError.rest err1 resp.StatusCode), log2)
          | (info, _, none, log2) => (info, none, log2)

/-- A call is one of the two sub-resource requests of the aggregation. -/
def Call.isSubCall : Call → Bool
  | .issueTypes _ => true
  | .fields _ _ => true
  | _ => false

/-! ## Data of `user_server.go` -/

/-- The struct `OAuth1aTemporaryCredentials`. -/
structure OAuth1aTemporaryCredentials where
  Token : String
  Secret : String
  deriving DecidableEq, Repr

/-- An `Instance` value as the handler sees it: its id, the type name in
`instance.Common().Type`, and whether its dynamic type is `*cloudInstance`. -/
structure Instance where
  ID : String
  TypeName : String
  isCloudInstance : Bool
  deriving DecidableEq, Repr

/-- The part of `jira.User` the handler reads. -/
structure JiraUser where
  Name : String
  DisplayName : String
  deriving DecidableEq, Repr

/-- The part of `model.User` the handler passes on. -/
structure MattermostUser where
  Id : String
  Username : String
  deriving DecidableEq, Repr

/-- The struct `ConnectionSettings`. -/
structure ConnectionSettings where
  Notifications : Bool
  deriving DecidableEq, Repr

/-- The struct `Connection` as the handler fills it; `User` is the zero value until
`GetSelf` has answered. -/
structure Connection where
  PluginVersion : String
  Oauth1AccessToken : String
  Oauth1AccessSecret : String
  User : JiraUser
  Settings : Option ConnectionSettings
  deriving DecidableEq, Repr

/-- What the handler reads from the request: the header `Mattermost-User-Id` (empty when
absent) and the raw query that `oauth1.ParseAuthorizationCallback` parses. -/
structure HttpRequest where
  MattermostUserId : String
  RawQuery : String
  deriving DecidableEq, Repr

/-- The payload of the confirmation page. -/
structure ConnectedView where
  MattermostDisplayName : String
  JiraDisplayName : String
  RevokeURL : String
  deriving DecidableEq, Repr

/-- A call of the handler to one of its collaborators.  The message of the failure page is
kept as the bytes of the Go string, which need not be valid UTF-8. -/
inductive Effect where
  | LoadInstance (instanceID : String)
  | GetUser (mattermostUserID : String)
  | OneTimeLoadOauth1aTemporaryCredentials (mattermostUserID : String)
  | AccessToken (requestToken : String) (requestSecret : String) (verifier : String)
  | GetClient (connection : Connection)
  | GetSelf
  | connectUser (instanceID : String) (mattermostUserID : String) (connection : Connection)
  | respondTemplate (data : ConnectedView)
  | respondSpecialTemplate (status : Int) (Header : String) (Message : List Nat)
  deriving DecidableEq, Repr

/-- The token exchange `AccessToken` was called. -/
def Effect.isAccessToken : Effect → Bool
  | .AccessToken _ _ _ => true
  | _ => false

/-- The connection store was written through `connectUser`. -/
def Effect.isConnectUser : Effect → Bool
  | .connectUser _ _ _ => true
  | _ => false

/-- The collaborators of `httpOAuth1aComplete`.  The temporary-credential store works on
a state of type `σ`; the other collaborators answer from the log of the calls made so
far. -/
structure PluginEnv (σ : Type) where
  /-- The constant `manifest.Version`. -/
  manifestVersion : String
  /-- The store method `p.instanceStore.LoadInstance`. -/
  LoadInstance : List Effect → String → Except GoError Instance
  /-- The function `oauth1.ParseAuthorizationCallback`: request token, verifier, error. -/
  ParseAuthorizationCallback : HttpRequest → String × String × Option GoError
  /-- The host call `p.API.GetUser`. -/
  GetUser : List Effect → String → Except GoError MattermostUser
  /-- The store method `p.otsStore.OneTimeLoadOauth1aTemporaryCredentials`: the pointer
  and the error it returns, and the store it leaves. -/
  OneTimeLoadOauth1aTemporaryCredentials :
    σ → String → (Option OAuth1aTemporaryCredentials × Option GoError) × σ
  /-- The exchange `si.getOAuth1Config().AccessToken`. -/
  AccessToken : List Effect → Instance → String → String → String → String × String × Option GoError
  /-- The error of `instance.GetClient(connection)`, if any. -/
  GetClient : List Effect → Instance → Connection → Option GoError
  /-- The call `client.GetSelf()` on the client made for the connection. -/
  GetSelf : List Effect → Instance → Connection → Except GoError JiraUser
  /-- The plugin method `p.connectUser`. -/
  connectUser : List Effect → Instance → String → Connection → Option GoError
  /-- The method `mmuser.GetDisplayName(model.SHOW_NICKNAME_FULLNAME)`. -/
  GetDisplayName : MattermostUser → String
  /-- The path `path.Join(p.GetPluginURLPath(), instancePath(routeUserDisconnect, id))`. -/
  revokeURL : String → String
  /-- The plugin method `p.respondTemplate`. -/
  respondTemplate : List Effect → ConnectedView → Int × Option GoError
  /-- The plugin method `p.respondSpecialTemplate` on template, status, content type,
  header and the bytes of the message. -/
  respondSpecialTemplate :
    List Effect → String → Int → String → String → List Nat → Int × Option GoError

/-- The state outside the handler: the temporary-credential store and the log of calls. -/
structure World (σ : Type) where
  store : σ
  log : List Effect

/-- Append one call to the log. -/
def World.record {σ : Type} (w : World σ) (e : Effect) : World σ :=
  { w with log := w.log ++ [e] }

def StatusOK : Int := 200

/-! ## The functions of `user_server.go` -/

/-- The UTF-8 encoding of one character, as bytes. -/
def utf8EncodeChar (c : Char) : List Nat :=
  let n := c.toNat
  if n < 128 then [n]
  else if n < 2048 then [192 + n / 64, 128 + n % 64]
  else if n < 65536 then [224 + n / 4096, 128 + n / 64 % 64, 128 + n % 64]
  else [240 + n / 262144, 128 + n / 4096 % 64, 128 + n / 64 % 64, 128 + n % 64]

/-- The bytes of a Go string holding the given text. -/
def utf8Bytes (s : String) : List Nat :=
  (s.data.map utf8EncodeChar).flatten

/-- Lines 33-36 on the bytes of the error text: when the text is not empty its first byte
goes through `strings.ToUpper` and the other bytes follow unchanged.  `strings.ToUpper`
of a one-byte string upper-cases an ASCII letter, keeps any other ASCII byte, and turns a
byte from 0x80 on, which is no valid UTF-8 by itself, into U+FFFD (bytes EF BF BD). -/
def capitalizeFirst (errtext : String) : List Nat :=
  match utf8Bytes errtext with
  | [] => []
  | b :: rest =>
    (if b < 128 then [if 97 ≤ b ∧ b ≤ 122 then b - 32 else b] else [239, 191, 189]) ++ rest

/-- The body of `Plugin.httpOAuth1aComplete` (lines 46-125): the values it returns,
before the deferred function runs. -/
def httpOAuth1aCompleteBody {σ : Type} (env : PluginEnv σ) (r : HttpRequest)
    (instanceID : String) (w : World σ) : (Int × Option GoError) × World σ :=
  let w1 := w.record (Effect.LoadInstance instanceID)
  match env.LoadInstance w.log instanceID with
  | .error err => ((StatusInternalServerError, some err), w1)
  | .ok inst =>
    if inst.isCloudInstance = false then
      ((StatusInternalServerError,
        some (GoError.new ("Not supported for instance type " ++ inst.TypeName))), w1)
    else
      match env.ParseAuthorizationCallback r with
      | (_, _, some err) =>
        ((StatusInternalServerError,
          errorsWithMessage (some err) "failed to parse callback request from Jira"), w1)
      | (requestToken, verifier, none) =>
        let mattermostUserID := r.MattermostUserId
        if mattermostUserID = "" then
          ((StatusUnauthorized, some (GoError.new "not authorized")), w1)
        else
          let w2 := w1.record (Effect.GetUser mattermostUserID)
          match env.GetUser w1.log mattermostUserID with
          | .error appErr =>
            ((StatusInternalServerError,
              errorsWithMessage (some appErr) ("failed to load user " ++ mattermostUserID)), w2)
          | .ok mmuser =>
            let loaded := env.OneTimeLoadOauth1aTemporaryCredentials w2.store mattermostUserID
            let w3 : World σ :=
              { store := loaded.2,
                log := w2.log ++ [Effect.OneTimeLoadOauth1aTemporaryCredentials mattermostUserID] }
            let err := loaded.1.2
            let failed : (Int × Option GoError) × World σ :=
              ((StatusInternalServerError,
                errorsWithMessage err
                  ("failed to get temporary credentials for " ++ mattermostUserID)), w3)
            match err, loaded.1.1 with
            | some _, _ => failed
            | none, none => failed
            | none, some oauthTmpCredentials =>
              if oauthTmpCredentials.Token = "" then failed
              else if oauthTmpCredentials.Token ≠ requestToken then
                ((StatusUnauthorized, some (GoError.new "request token mismatch")), w3)
              else
                let w4 := w3.record
                  (Effect.AccessToken requestToken oauthTmpCredentials.Secret verifier)
                match env.AccessToken w3.log inst requestToken oauthTmpCredentials.Secret
                    verifier with
                | (_, _, some err) =>
                  ((StatusInternalServerError,
                    errorsWithMessage (some err) "failed to obtain oauth1 access token"), w4)
                | (accessToken, accessSecret, none) =>
                  let connection : Connection :=
                    { PluginVersion := env.manifestVersion, Oauth1AccessToken := accessToken,
                      Oauth1AccessSecret := accessSecret,
                      User := { Name := "", DisplayName := "" }, Settings := none }
                  let w5 := w4.record (Effect.GetClient connection)
                  match env.GetClient w4.log inst connection with
                  | some err => ((StatusInternalServerError, some err), w5)
                  | none =>
                    let w6 := w5.record Effect.GetSelf
                    match env.GetSelf w5.log inst connection with
                    | .error err => ((StatusInternalServerError, some err), w6)
                    | .ok juser =>
                      let connection1 : Connection :=
                        { connection with
                          User := juser, Settings := some { Notifications := true } }
                      let w7 := w6.record
                        (Effect.connectUser inst.ID mattermostUserID connection1)
                      match env.connectUser w6.log inst mattermostUserID connection1 with
                      | some err => ((StatusInternalServerError, some err), w7)
                      | none =>
                        let data : ConnectedView :=
                          { JiraDisplayName := juser.DisplayName ++ " (" ++ juser.Name ++ ")",
                            MattermostDisplayName := env.GetDisplayName mmuser,
                            RevokeURL := env.revokeURL inst.ID }
                        (env.respondTemplate w7.log data,
                          w7.record (Effect.respondTemplate data))

/-- The method `Plugin.httpOAuth1aComplete`: the body followed by the deferred function
of lines 28-44, which renders a non-nil error and replaces the returned values by those
of `respondSpecialTemplate`. -/
def httpOAuth1aComplete {σ : Type} (env : PluginEnv σ) (r : HttpRequest)
    (instanceID : String) (w : World σ) : (Int × Option GoError) × World σ :=
  match httpOAuth1aCompleteBody env r instanceID w with
  | ((status, none), w1) => ((status, none), w1)
  | ((status, some err), w1) =>
    let errtext := capitalizeFirst err.Error
    (env.respondSpecialTemplate w1.log "/other/message.html" status "text/html"
        "Failed to connect to Jira." errtext,
      w1.record (Effect.respondSpecialTemplate status "Failed to connect to Jira." errtext))

/-- A sequence of completion attempts, each on the world the previous one left; for each
attempt the request and the calls that attempt made. -/
def completionAttempts {σ : Type} (env : PluginEnv σ) :
    List (HttpRequest × String) → World σ → List (HttpRequest × List Effect) × World σ
  | [], w => ([], w)
  | (r, instanceID) :: rest, w =>
    let w1 := (httpOAuth1aComplete env r instanceID w).2
    let (done, w2) := completionAttempts env rest w1
    ((r, w1.log.drop w.log.length) :: done, w2)

/-- Modelled from the spec: the temporary-credential store, whose code is in another file.
The spec gives it as `consumeOnce(localIdentity) -> TemporaryCredential | absent`, an atomic
check-and-delete: the store maps a local identity to its pending credential. -/
abbrev TemporaryCredentialStore := GoMap OAuth1aTemporaryCredentials

/-- Modelled from the spec: the load `consumeOnce` of the temporary-credential store, the
check and the delete as one step; it returns the credential of the identity or nothing,
and leaves the store without an entry for that identity. -/
def consumeOnce (store : TemporaryCredentialStore) (localIdentity : String) :
    (Option OAuth1aTemporaryCredentials × Option GoError) × TemporaryCredentialStore :=
  ((store.get localIdentity, none), store.filter (fun e => e.1 != localIdentity))

/-- A call that is neither the token exchange nor a write of the connection store. -/
def Effect.isQuiet (e : Effect) : Bool :=
  !e.isAccessToken && !e.isConnectUser

/-- The number of calls of the token exchange `AccessToken` made by the attempts of a
sequence that were made for identity `u`. -/
def exchangeCount (u : String) (done : List (HttpRequest × List Effect)) : Nat :=
  ((done.filter (fun a => decide (a.1.MattermostUserId = u))).map
    (fun a => a.2.countP Effect.isAccessToken)).sum

/-! ## Sample deployments used to evaluate the functions -/

/-- A version parser for the samples: it knows three version strings. -/
def sampleSemverMake (s : String) : Except GoError Version :=
  if s = "8.9.0" then .ok { Major := 8, Minor := 9, Patch := 0, Pre := [], Build := [] }
  else if s = "9.0.0" then .ok pivot900
  else if s = "9.2.1" then .ok { Major := 9, Minor := 2, Patch := 1, Pre := [], Build := [] }
  else .error (GoError.new "No Major.Minor.Patch elements found")

/-- The printing of the samples: strings print as themselves, nil as `<nil>`. -/
def sampleSprintV : Option JSONValue → String
  | none => "<nil>"
  | some .null => "<nil>"
  | some (.bool b) => if b then "true" else "false"
  | some (.str s) => s
  | some (.raw text) => text

def sampleIssueType (id : String) : MetaIssueType :=
  { Self := "", Id := id, Description := "", IconUrl := "", Name := id, Subtasks := false,
    Expand := "", Fields := none }

def sampleProject (id : String) : Project :=
  { Expand := "", Self := "", ID := id, Key := id, Name := id }

/-- A field listing of three entries in which the field id `summary` comes twice. -/
def sampleFields : List FieldValue :=
  [[("fieldId", JSONValue.str "summary"), ("name", JSONValue.str "Old summary")],
    [("fieldId", JSONValue.str "priority"), ("name", JSONValue.str "Priority")],
    [("fieldId", JSONValue.str "summary"), ("name", JSONValue.str "Summary")]]

/-- A deployment reporting `version` with projects `10000` (one issue type) and `10001`
(two issue types); the field listing of every issue type is `sampleFields`, and a
sub-call fails with status 500 exactly for the project ids and issue
type ids named in `failing`. -/
def sampleEnv (version : String) (failing : List String) : Env :=
  { newRequest := fun _ => none
    doServerInfo := fun _ => { value := { Version := version }, resp := some ⟨200⟩, err := none }
    doIssueTypes := fun _ projectID =>
      if projectID ∈ failing then
        { value := { Values := [] }, resp := some ⟨500⟩, err := some (GoError.new "boom") }
      else
        { value := { Values := if projectID = "10000" then [sampleIssueType "1"]
                               else [sampleIssueType "2", sampleIssueType "3"] }
          resp := some ⟨200⟩, err := none }
    doFields := fun _ _ issueTypeID =>
      if issueTypeID ∈ failing then
        { value := { Values := [] }, resp := some ⟨500⟩, err := some (GoError.new "boom") }
      else
        { value := { Values := sampleFields }, resp := some ⟨200⟩, err := none }
    getCreateMetaWithOptions := fun _ _ =>
      (some { Expand := "native", Projects := [] }, some ⟨200⟩, none)
    listWithOptions := fun _ _ =>
      (some [sampleProject "10000", sampleProject "10001"], some ⟨200⟩, none)
    userFriendlyJiraError := fun _ err => err
    semverMake := sampleSemverMake
    sprintV := sampleSprintV }


/-- The `Fields` map the aggregation builds from `sampleFields`. -/
def sampleFieldMap : GoMap FieldValue :=
  [("summary", [("fieldId", JSONValue.str "summary"), ("name", JSONValue.str "Summary")]),
    ("priority", [("fieldId", JSONValue.str "priority"), ("name", JSONValue.str "Priority")])]

/-- The result of the aggregation on the sample deployment when nothing fails. -/
def sampleMeta : CreateMetaInfo :=
  { Expand := ""
    Projects :=
      [assembleProject (sampleProject "10000")
          [{ sampleIssueType "1" with Fields := some sampleFieldMap }],
        assembleProject (sampleProject "10001")
          [{ sampleIssueType "2" with Fields := some sampleFieldMap },
            { sampleIssueType "3" with Fields := some sampleFieldMap }]] }

/-- The sample deployment with the native metadata call and the project listing both
failing with the given status. -/
def sampleEnvFailing (version : String) (status : Int) : Env :=
  { sampleEnv version [] with
    getCreateMetaWithOptions := fun _ _ =>
      (none, some ⟨status⟩, some (GoError.new "request failed"))
    listWithOptions := fun _ _ => (none, some ⟨status⟩, some (GoError.new "request failed")) }

/-- Collaborators for the samples: one cloud instance, a callback query that is the
request token itself with verifier `v`, an exchange that always succeeds, and the store
of the spec. -/
def samplePluginEnv : PluginEnv TemporaryCredentialStore :=
  { manifestVersion := "1.0.0"
    LoadInstance := fun _ id => .ok { ID := id, TypeName := "cloud", isCloudInstance := true }
    ParseAuthorizationCallback := fun r =>
      if r.RawQuery = "" then
        ("", "", some (GoError.new "oauth1: Request missing oauth_token or oauth_verifier"))
      else (r.RawQuery, "v", none)
    GetUser := fun _ id => .ok { Id := id, Username := id }
    OneTimeLoadOauth1aTemporaryCredentials := consumeOnce
    AccessToken := fun _ _ _ _ _ => ("access", "secret", none)
    GetClient := fun _ _ _ => none
    GetSelf := fun _ _ _ => .ok { Name := "jdoe", DisplayName := "J Doe" }
    connectUser := fun _ _ _ _ => none
    GetDisplayName := fun u => u.Username
    revokeURL := fun id => "/plugins/jira/instance/" ++ id ++ "/user/disconnect"
    respondTemplate := fun _ _ => (StatusOK, none)
    respondSpecialTemplate := fun _ _ status _ _ _ => (status, none) }

/-- The sample collaborators with a store load that returns `loaded` and keeps the
store. -/
def samplePluginEnvLoading
    (loaded : Option OAuth1aTemporaryCredentials × Option GoError) :
    PluginEnv TemporaryCredentialStore :=
  { samplePluginEnv with OneTimeLoadOauth1aTemporaryCredentials := fun s _ => (loaded, s) }

def sampleRequest (user token : String) : HttpRequest :=
  { MattermostUserId := user, RawQuery := token }

def sampleWorld : World TemporaryCredentialStore :=
  { store := [("u1", { Token := "tok", Secret := "sec" })], log := [] }

/-! ## Lemmas on maps -/

theorem lookup_filter_ne {α : Type} (m : GoMap α) (k k1 : String) (h : k1 ≠ k) :
    List.lookup k1 (m.filter (fun e => e.1 != k)) = List.lookup k1 m := by
  induction m with
  | nil => rfl
  | cons e m ih =>
    obtain ⟨a, b⟩ := e
    by_cases hak : a = k
    · subst hak
      have hne : (k1 == a) = false := by simpa using h
      simp [List.filter_cons, List.lookup_cons, hne, ih]
    · simp only [List.filter_cons, bne_iff_ne, ne_eq, hak, not_false_eq_true, decide_True,
        ↓reduceIte, List.lookup_cons, ih]

theorem GoMap.get_set {α : Type} (m : GoMap α) (k k1 : String) (v : α) :
    (m.set k v).get k1 = if k1 = k then some v else m.get k1 := by
  unfold GoMap.set GoMap.get
  by_cases h : k1 = k
  · subst h
    simp [List.lookup_cons]
  · have hne : (k1 == k) = false := by simpa using h
    simp [List.lookup_cons, hne, h, lookup_filter_ne m k k1 h]

theorem GoMap.mem_keys_iff {α : Type} (m : GoMap α) (k : String) :
    k ∈ m.keys ↔ (m.get k).isSome = true := by
  unfold GoMap.keys GoMap.get
  induction m with
  | nil => simp
  | cons e m ih =>
    obtain ⟨a, b⟩ := e
    by_cases h : k = a
    · subst h
      simp [List.lookup_cons]
    · have hne : (k == a) = false := by simpa using h
      simp [List.lookup_cons, hne, h, ih]

theorem GoMap.keys_set_nodup {α : Type} (m : GoMap α) (k : String) (v : α)
    (h : m.keys.Nodup) : (m.set k v).keys.Nodup := by
  unfold GoMap.set GoMap.keys at *
  rw [List.map_cons, List.nodup_cons]
  constructor
  · simp
  · exact (List.filter_sublist m).map Prod.fst |>.nodup h

/-- A lookup in the folded map finds the last listed entry printed as the key, and
otherwise what the initial map held. -/
theorem foldl_set_get (env : Env) (values : List FieldValue) (acc : GoMap FieldValue)
    (k : String) :
    (values.foldl (fun fieldMap fieldValue =>
        fieldMap.set (env.sprintV (fieldValue.get "fieldId")) fieldValue) acc).get k =
      (values.reverse.find? (fun e => env.sprintV (e.get "fieldId") == k)).or (acc.get k) := by
  induction values generalizing acc with
  | nil => simp
  | cons v vs ih =>
    rw [List.foldl_cons, ih, List.reverse_cons, List.find?_append, GoMap.get_set]
    cases hfind : List.find? (fun e => env.sprintV (e.get "fieldId") == k) vs.reverse with
    | some e => simp
    | none =>
      by_cases hk : k = env.sprintV (v.get "fieldId")
      · simp [hk]
      · have hne : (env.sprintV (v.get "fieldId") == k) = false := by
          simpa using fun h => hk h.symm
        simp [hk, hne]

theorem foldl_set_nodup (env : Env) (values : List FieldValue) (acc : GoMap FieldValue)
    (h : acc.keys.Nodup) :
    (values.foldl (fun fieldMap fieldValue =>
        fieldMap.set (env.sprintV (fieldValue.get "fieldId")) fieldValue) acc).keys.Nodup := by
  induction values generalizing acc with
  | nil => simpa using h
  | cons v vs ih =>
    rw [List.foldl_cons]
    exact ih _ (GoMap.keys_set_nodup acc _ v h)

/-! ## Lemmas on the loops of `GetProjectInfoForPivotJiraVersion` -/

theorem issueTypeLoop_cons_ok (env : Env) (projID : String) (it : MetaIssueType)
    (rest : List MetaIssueType) (s : LoopState)
    (hreq : env.newRequest (fieldsEndpoint projID it.Id) = none)
    (hdo : (env.doFields s.log projID it.Id).err = none) :
    issueTypeLoop env projID (it :: rest) s =
      ({ it with Fields := some (buildFieldMap env (env.doFields s.log projID it.Id).value.Values) } ::
          (issueTypeLoop env projID rest
            { resp := (env.doFields s.log projID it.Id).resp, err := none,
              log := s.log ++ [Call.fields projID it.Id] }).1,
        (issueTypeLoop env projID rest
            { resp := (env.doFields s.log projID it.Id).resp, err := none,
              log := s.log ++ [Call.fields projID it.Id] }).2) := by
  rw [issueTypeLoop]
  simp only [hreq, hdo]

theorem issueTypeLoop_cons_request_fails (env : Env) (projID : String) (it : MetaIssueType)
    (rest : List MetaIssueType) (s : LoopState) (e : GoError)
    (hreq : env.newRequest (fieldsEndpoint projID it.Id) = some e) :
    issueTypeLoop env projID (it :: rest) s = (it :: rest, { s with err := some e }) := by
  rw [issueTypeLoop]
  simp only [hreq]

theorem issueTypeLoop_cons_do_fails (env : Env) (projID : String) (it : MetaIssueType)
    (rest : List MetaIssueType) (s : LoopState) (e : GoError)
    (hreq : env.newRequest (fieldsEndpoint projID it.Id) = none)
    (hdo : (env.doFields s.log projID it.Id).err = some e) :
    issueTypeLoop env projID (it :: rest) s =
      (it :: rest,
        { resp := (env.doFields s.log projID it.Id).resp, err := some e,
          log := s.log ++ [Call.fields projID it.Id] }) := by
  rw [issueTypeLoop]
  simp only [hreq, hdo]

/-- The inner loop only adds field requests to the log, at most one per issue type. -/
theorem issueTypeLoop_log (env : Env) (projID : String) (its : List MetaIssueType)
    (s : LoopState) :
    ∃ calls, (issueTypeLoop env projID its s).2.log = s.log ++ calls ∧
      calls.length ≤ its.length ∧ ∀ c ∈ calls, c.isSubCall = true := by
  induction its generalizing s with
  | nil => exact ⟨[], by simp [issueTypeLoop]⟩
  | cons it rest ih =>
    cases hreq : env.newRequest (fieldsEndpoint projID it.Id) with
    | some e =>
      rw [issueTypeLoop_cons_request_fails env projID it rest s e hreq]
      exact ⟨[], by simp⟩
    | none =>
      cases hdo : (env.doFields s.log projID it.Id).err with
      | some e =>
        rw [issueTypeLoop_cons_do_fails env projID it rest s e hreq hdo]
        exact ⟨[Call.fields projID it.Id], by simp [Call.isSubCall]⟩
      | none =>
        rw [issueTypeLoop_cons_ok env projID it rest s hreq hdo]
        obtain ⟨calls, hlog, hlen, hsub⟩ := ih
          { resp := (env.doFields s.log projID it.Id).resp, err := none,
            log := s.log ++ [Call.fields projID it.Id] }
        refine ⟨Call.fields projID it.Id :: calls, ?_, by simpa using hlen, ?_⟩
        · simp [hlog]
        · intro c hc
          rcases List.mem_cons.mp hc with h | h
          · subst h; rfl
          · exact hsub c h

theorem GetIssueInfo_some_of_ok (env : Env) (projectID : String) (log : List Call)
    (h : (GetIssueInfo env projectID log).2.2.1 = none) :
    ∃ info resp, GetIssueInfo env projectID log =
      (some info, resp, none, log ++ [Call.issueTypes projectID]) := by
  unfold GetIssueInfo at *
  cases hreq : env.newRequest (APIEndpointCreateIssueMeta ++ projectID ++ "/issuetypes") with
  | some e => simp [hreq] at h
  | none =>
    simp only [hreq] at h ⊢
    exact ⟨_, _, by rw [h]⟩

theorem projectLoop_cons_fails (env : Env) (proj : Project) (rest : List Project)
    (m : CreateMetaInfo) (s : LoopState) (e : GoError)
    (h : (GetIssueInfo env proj.ID s.log).2.2.1 = some e) :
    projectLoop env (proj :: rest) (m, s) =
      ({ m with Expand := proj.Expand },
        { resp := (GetIssueInfo env proj.ID s.log).2.1, err := some e,
          log := (GetIssueInfo env proj.ID s.log).2.2.2 }) := by
  rw [projectLoop]
  rcases hg : GetIssueInfo env proj.ID s.log with ⟨info, resp, err, log1⟩
  rw [hg] at h
  simp only at h
  subst h
  cases info <;> rfl

theorem projectLoop_cons_ok (env : Env) (proj : Project) (rest : List Project)
    (m : CreateMetaInfo) (s : LoopState) (info : ProjectIssueInfo) (resp : Option Response)
    (log1 : List Call)
    (h : GetIssueInfo env proj.ID s.log = (some info, resp, none, log1)) :
    projectLoop env (proj :: rest) (m, s) =
      projectLoop env rest
        ({ Expand := proj.Expand,
           Projects := m.Projects ++
            [assembleProject proj (issueTypeLoop env proj.ID info.Values
                 { resp := resp, err := none, log := log1 }).1] },
          (issueTypeLoop env proj.ID info.Values
            { resp := resp, err := none, log := log1 }).2) := by
  rw [projectLoop]
  simp only [h]

/-- The result projects are the projects held before the loop followed by the entries of
an initial segment of the listing, and by the whole listing when every issue-type listing
succeeds. -/
theorem projectLoop_projects (env : Env) (pl : List Project) (m : CreateMetaInfo)
    (s : LoopState) :
    ∃ k, (projectLoop env pl (m, s)).1.Projects.map MetaProject.toProject =
        m.Projects.map MetaProject.toProject ++ pl.take k ∧
      ((∀ q ∈ pl, ∀ h, (GetIssueInfo env q.ID h).2.2.1 = none) → pl.length ≤ k) := by
  induction pl generalizing m s with
  | nil => exact ⟨0, by simp [projectLoop]⟩
  | cons proj rest ih =>
    cases hg : (GetIssueInfo env proj.ID s.log).2.2.1 with
    | some e =>
      rw [projectLoop_cons_fails env proj rest m s e hg]
      refine ⟨0, by simp, fun hall => ?_⟩
      rw [hall proj (List.mem_cons_self proj rest) s.log] at hg
      cases hg
    | none =>
      obtain ⟨info, resp, hinfo⟩ := GetIssueInfo_some_of_ok env proj.ID s.log hg
      rw [projectLoop_cons_ok env proj rest m s info resp _ hinfo]
      obtain ⟨k, hk, hall⟩ := ih
        { Expand := proj.Expand,
          Projects := m.Projects ++
            [assembleProject proj (issueTypeLoop env proj.ID info.Values
                 { resp := resp, err := none, log := s.log ++ [Call.issueTypes proj.ID] }).1] }
        (issueTypeLoop env proj.ID info.Values
          { resp := resp, err := none, log := s.log ++ [Call.issueTypes proj.ID] }).2
      refine ⟨k + 1, ?_, fun h => ?_⟩
      · rw [hk]
        simp [MetaProject.toProject, assembleProject]
      · have := hall (fun q hq => h q (List.mem_cons_of_mem proj hq))
        simp only [List.length_cons]
        omega

theorem GetIssueInfo_ok_of (env : Env) (projectID : String) (log : List Call)
    (hreq : ∀ e, env.newRequest e = none) (hissue : ∀ h p, (env.doIssueTypes h p).err = none) :
    GetIssueInfo env projectID log =
      (some (env.doIssueTypes log projectID).value, (env.doIssueTypes log projectID).resp,
        none, log ++ [Call.issueTypes projectID]) := by
  unfold GetIssueInfo
  simp only [hreq, hissue]

/-- The inner loop changes nothing of an issue type but its `Fields`. -/
theorem issueTypeLoop_withoutFields (env : Env) (projID : String) (its : List MetaIssueType)
    (s : LoopState) :
    (issueTypeLoop env projID its s).1.map MetaIssueType.withoutFields =
      its.map MetaIssueType.withoutFields := by
  induction its generalizing s with
  | nil => simp [issueTypeLoop]
  | cons it rest ih =>
    cases hreq : env.newRequest (fieldsEndpoint projID it.Id) with
    | some e => rw [issueTypeLoop_cons_request_fails env projID it rest s e hreq]
    | none =>
      cases hdo : (env.doFields s.log projID it.Id).err with
      | some e => rw [issueTypeLoop_cons_do_fails env projID it rest s e hreq hdo]
      | none =>
        rw [issueTypeLoop_cons_ok env projID it rest s hreq hdo]
        simp [ih, MetaIssueType.withoutFields]

/-- When every field request is built and answered without error, the inner loop issues
exactly the field requests of the issue types, in their order. -/
theorem issueTypeLoop_log_ok (env : Env) (projID : String) (its : List MetaIssueType)
    (s : LoopState) (hreq : ∀ e, env.newRequest e = none)
    (hdo : ∀ h p i, (env.doFields h p i).err = none) :
    (issueTypeLoop env projID its s).2.log =
      s.log ++ its.map (fun it => Call.fields projID it.Id) := by
  induction its generalizing s with
  | nil => simp [issueTypeLoop]
  | cons it rest ih =>
    rw [issueTypeLoop_cons_ok env projID it rest s (hreq _) (hdo _ _ _), ih]
    simp

/-- When every sub-call succeeds, the outer loop appends one project per listed project,
holding the issue types its listing returned, and issues exactly the requests counted by
the specification. -/
theorem projectLoop_all_ok (env : Env) (pl : List Project) (m : CreateMetaInfo)
    (s : LoopState) (hreq : ∀ e, env.newRequest e = none)
    (hissue : ∀ h p, (env.doIssueTypes h p).err = none)
    (hfields : ∀ h p i, (env.doFields h p i).err = none) :
    (projectLoop env pl (m, s)).2.log =
      s.log ++ aggregationCalls pl (listedIssueTypes env pl s.log) ∧
    ∃ added, (projectLoop env pl (m, s)).1.Projects = m.Projects ++ added ∧
      added.map MetaProject.toProject = pl ∧
      added.map (fun p => p.IssueTypes.map MetaIssueType.withoutFields) =
        (listedIssueTypes env pl s.log).map (fun l => l.map MetaIssueType.withoutFields) := by
  induction pl generalizing m s with
  | nil => exact ⟨by simp [projectLoop, aggregationCalls], [], by simp [projectLoop, listedIssueTypes]⟩
  | cons proj rest ih =>
    rw [projectLoop_cons_ok env proj rest m s _ _ _ (GetIssueInfo_ok_of env proj.ID s.log hreq hissue)]
    have hlog1 := issueTypeLoop_log_ok env proj.ID (env.doIssueTypes s.log proj.ID).value.Values
      { resp := (env.doIssueTypes s.log proj.ID).resp, err := none,
        log := s.log ++ [Call.issueTypes proj.ID] } hreq hfields
    have hsame := issueTypeLoop_withoutFields env proj.ID
      (env.doIssueTypes s.log proj.ID).value.Values
      { resp := (env.doIssueTypes s.log proj.ID).resp, err := none,
        log := s.log ++ [Call.issueTypes proj.ID] }
    generalize issueTypeLoop env proj.ID (env.doIssueTypes s.log proj.ID).value.Values
      { resp := (env.doIssueTypes s.log proj.ID).resp, err := none,
        log := s.log ++ [Call.issueTypes proj.ID] } = res at hlog1 hsame
    obtain ⟨hlog, added, hproj, hmap, hlisted⟩ := ih
      { Expand := proj.Expand, Projects := m.Projects ++ [assembleProject proj res.1] } res.2
    have hlogeq : res.2.log =
        s.log ++ projectCalls proj (env.doIssueTypes s.log proj.ID).value.Values := by
      rw [hlog1]
      simp [projectCalls]
    rw [hlogeq] at hlog hlisted
    refine ⟨?_, assembleProject proj res.1 :: added, ?_, ?_, ?_⟩
    · rw [hlog]
      simp [aggregationCalls, listedIssueTypes]
    · rw [hproj]
      simp
    · simp [hmap, MetaProject.toProject, assembleProject]
    · simp only [List.map_cons, listedIssueTypes, hlisted, assembleProject, hsame]

theorem listedIssueTypes_length (env : Env) (pl : List Project) (log : List Call) :
    (listedIssueTypes env pl log).length = pl.length := by
  induction pl generalizing log with
  | nil => rfl
  | cons proj rest ih => simp [listedIssueTypes, ih]

/-- The requests counted for `P` projects number `P` plus the issue types returned. -/
theorem aggregationCalls_length (pl : List Project) (listed : List (List MetaIssueType))
    (h : listed.length = pl.length) :
    (aggregationCalls pl listed).length = pl.length + (listed.map List.length).sum := by
  induction pl generalizing listed with
  | nil =>
    have hnil : listed = [] := List.length_eq_zero.mp h
    subst hnil
    simp [aggregationCalls]
  | cons proj rest ih =>
    cases listed with
    | nil => simp at h
    | cons values more =>
      simp only [List.length_cons, add_left_inj] at h
      simp only [aggregationCalls, projectCalls, List.length_append, List.length_cons,
        List.length_map, ih more h, List.map_cons, List.sum_cons]
      omega

theorem aggregationCalls_subCall (pl : List Project) (listed : List (List MetaIssueType)) :
    ∀ c ∈ aggregationCalls pl listed, c.isSubCall = true := by
  induction pl generalizing listed with
  | nil => simp [aggregationCalls]
  | cons proj rest ih =>
    cases listed with
    | nil => simp [aggregationCalls]
    | cons values more =>
      intro c hc
      simp only [aggregationCalls, projectCalls, List.cons_append, List.mem_cons,
        List.mem_append, List.mem_map] at hc
      rcases hc with h | ⟨it, _, h⟩ | h
      · subst h; rfl
      · subst h; rfl
      · exact ih more c h

/-- What `ListProjects` returns on a successful native listing. -/
theorem ListProjects_of_ok (env : Env) (query : String) (limit : Int)
    (expandIssueTypes : Bool) (log : List Call) (pList : Option (List Project))
    (resp : Option Response)
    (hlist : env.listWithOptions log (listQueryOptions expandIssueTypes) = (pList, resp, none)) :
    ListProjects env query limit expandIssueTypes log =
      (if limit > 0 then (pList.getD []).take (min limit.toNat (pList.getD []).length)
        else pList.getD [],
       resp, none, log ++ [Call.listProjects (listQueryOptions expandIssueTypes)]) := by
  unfold ListProjects
  simp only [hlist]
  cases pList with
  | none => simp
  | some l =>
    simp only [Option.getD_some]
    by_cases hl : limit > 0
    · simp only [hl, true_and, ↓reduceIte]
      by_cases hlen : (l.length : Int) > limit
      · simp only [hlen, ↓reduceIte]
        congr 1
        simp
      · simp only [hlen, ↓reduceIte]
        congr 1
        have hle : l.length ≤ limit.toNat := by omega
        simp [hle]
    · simp [hl]

/-- The aggregation after a successful listing: the outer loop runs on the whole listing
from an empty result, and the error returned is nil. -/
theorem GetProjectInfoForPivotJiraVersion_of_listing (env : Env)
    (options : Option GetQueryOptions) (log : List Call) (pList : Option (List Project))
    (resp : Option Response)
    (hlist : env.listWithOptions log (listQueryOptions false) = (pList, resp, none)) :
    GetProjectInfoForPivotJiraVersion env options log =
      (some (projectLoop env (pList.getD [])
          ({ Expand := "", Projects := [] },
            { resp := resp, err := none,
              log := log ++ [Call.listProjects (listQueryOptions false)] })).1,
        (projectLoop env (pList.getD [])
          ({ Expand := "", Projects := [] },
            { resp := resp, err := none,
              log := log ++ [Call.listProjects (listQueryOptions false)] })).2.resp,
        none,
        (projectLoop env (pList.getD [])
          ({ Expand := "", Projects := [] },
            { resp := resp, err := none,
              log := log ++ [Call.listProjects (listQueryOptions false)] })).2.log) := by
  unfold GetProjectInfoForPivotJiraVersion
  rw [ListProjects_of_ok env "" (-1) false log pList resp hlist]
  simp

/-- What `GetIssueInfo` adds to the log: nothing when the request cannot be built, one
issue-type request otherwise. -/
theorem GetIssueInfo_log (env : Env) (projectID : String) (log : List Call) :
    (GetIssueInfo env projectID log).2.2.2 = log ∨
    (GetIssueInfo env projectID log).2.2.2 = log ++ [Call.issueTypes projectID] := by
  unfold GetIssueInfo
  cases hreq : env.newRequest (APIEndpointCreateIssueMeta ++ projectID ++ "/issuetypes") <;>
    simp [hreq]

/-- A field request that the inner loop logged and that was answered without error has its
map in the `Fields` of an issue type the loop returns. -/
theorem issueTypeLoop_fields (env : Env) (projID : String) (its : List MetaIssueType)
    (s : LoopState) (t u : List Call) (pid itId : String)
    (hcall : (issueTypeLoop env projID its s).2.log = s.log ++ t ++ Call.fields pid itId :: u)
    (hok : (env.doFields (s.log ++ t) pid itId).err = none) :
    pid = projID ∧ ∃ it ∈ (issueTypeLoop env projID its s).1, it.Id = itId ∧
      it.Fields =
        some (buildFieldMap env (env.doFields (s.log ++ t) pid itId).value.Values) := by
  induction its generalizing s t with
  | nil =>
    simp only [issueTypeLoop, List.append_assoc] at hcall
    have := congrArg List.length hcall
    simp at this
  | cons it rest ih =>
    cases hreq : env.newRequest (fieldsEndpoint projID it.Id) with
    | some e =>
      rw [issueTypeLoop_cons_request_fails env projID it rest s e hreq] at hcall
      simp only [List.append_assoc] at hcall
      have := congrArg List.length hcall
      simp at this
    | none =>
      cases hdo : (env.doFields s.log projID it.Id).err with
      | some e =>
        rw [issueTypeLoop_cons_do_fails env projID it rest s e hreq hdo] at hcall
        simp only [List.append_assoc, List.append_cancel_left_eq] at hcall
        cases t with
        | nil =>
          simp only [List.nil_append, List.cons.injEq, Call.fields.injEq] at hcall
          obtain ⟨⟨hp, hi⟩, _⟩ := hcall
          subst hp hi
          simp only [List.append_nil] at hok
          rw [hok] at hdo
          cases hdo
        | cons c t1 =>
          have := congrArg List.length hcall
          simp at this
      | none =>
        rw [issueTypeLoop_cons_ok env projID it rest s hreq hdo] at hcall ⊢
        obtain ⟨calls, hlog, _, _⟩ := issueTypeLoop_log env projID rest
          { resp := (env.doFields s.log projID it.Id).resp, err := none,
            log := s.log ++ [Call.fields projID it.Id] }
        cases t with
        | nil =>
          rw [hlog] at hcall
          simp only [List.append_assoc, List.append_cancel_left_eq, List.singleton_append,
            List.nil_append, List.cons.injEq, Call.fields.injEq] at hcall
          obtain ⟨⟨hp, hi⟩, _⟩ := hcall
          subst hp hi
          simp only [List.append_nil] at hok ⊢
          exact ⟨trivial, _, List.mem_cons_self _ _, rfl, rfl⟩
        | cons c t1 =>
          have hc : c = Call.fields projID it.Id := by
            rw [hlog] at hcall
            simp only [List.append_assoc, List.append_cancel_left_eq, List.singleton_append,
              List.cons_append, List.cons.injEq] at hcall
            exact hcall.1.symm
          subst hc
          have hcall1 : (issueTypeLoop env projID rest
              { resp := (env.doFields s.log projID it.Id).resp, err := none,
                log := s.log ++ [Call.fields projID it.Id] }).2.log =
              (s.log ++ [Call.fields projID it.Id]) ++ t1 ++ Call.fields pid itId :: u := by
            rw [hcall]
            simp
          have hok1 : (env.doFields ((s.log ++ [Call.fields projID it.Id]) ++ t1) pid
              itId).err = none := by
            rw [← hok]
            simp
          obtain ⟨hp, it1, hmem, hid, hf⟩ := ih _ t1 hcall1 hok1
          refine ⟨hp, it1, List.mem_cons_of_mem _ hmem, hid, ?_⟩
          rw [hf]
          simp

/-- The outer loop only appends to the result projects and to the log. -/
theorem projectLoop_extends (env : Env) (pl : List Project) (m : CreateMetaInfo)
    (s : LoopState) :
    ∃ added calls, (projectLoop env pl (m, s)).1.Projects = m.Projects ++ added ∧
      (projectLoop env pl (m, s)).2.log = s.log ++ calls := by
  induction pl generalizing m s with
  | nil => exact ⟨[], [], by simp [projectLoop]⟩
  | cons proj rest ih =>
    cases hg : (GetIssueInfo env proj.ID s.log).2.2.1 with
    | some e =>
      rw [projectLoop_cons_fails env proj rest m s e hg]
      rcases GetIssueInfo_log env proj.ID s.log with h | h
      · exact ⟨[], [], by simp [h]⟩
      · exact ⟨[], [Call.issueTypes proj.ID], by simp [h]⟩
    | none =>
      obtain ⟨info, resp, hinfo⟩ := GetIssueInfo_some_of_ok env proj.ID s.log hg
      rw [projectLoop_cons_ok env proj rest m s info resp _ hinfo]
      obtain ⟨calls1, hlog1, _, _⟩ := issueTypeLoop_log env proj.ID info.Values
        { resp := resp, err := none, log := s.log ++ [Call.issueTypes proj.ID] }
      generalize issueTypeLoop env proj.ID info.Values
        { resp := resp, err := none, log := s.log ++ [Call.issueTypes proj.ID] } = res
        at hlog1
      obtain ⟨added, calls, hproj, hlog⟩ := ih
        { Expand := proj.Expand, Projects := m.Projects ++ [assembleProject proj res.1] } res.2
      exact ⟨assembleProject proj res.1 :: added, Call.issueTypes proj.ID :: (calls1 ++ calls),
        by rw [hproj]; simp, by rw [hlog, hlog1]; simp⟩

/-- A field request that the outer loop logged and that was answered without error has its
map in the `Fields` of an issue type of a result project. -/
theorem projectLoop_fields (env : Env) (pl : List Project) (m : CreateMetaInfo)
    (s : LoopState) (t u : List Call) (pid itId : String)
    (hcall : (projectLoop env pl (m, s)).2.log = s.log ++ t ++ Call.fields pid itId :: u)
    (hok : (env.doFields (s.log ++ t) pid itId).err = none) :
    ∃ p ∈ (projectLoop env pl (m, s)).1.Projects, p.Id = pid ∧
      ∃ it ∈ p.IssueTypes, it.Id = itId ∧
        it.Fields =
          some (buildFieldMap env (env.doFields (s.log ++ t) pid itId).value.Values) := by
  induction pl generalizing m s t with
  | nil =>
    simp only [projectLoop, List.append_assoc] at hcall
    have := congrArg List.length hcall
    simp at this
  | cons proj rest ih =>
    cases hg : (GetIssueInfo env proj.ID s.log).2.2.1 with
    | some e =>
      rw [projectLoop_cons_fails env proj rest m s e hg] at hcall
      simp only at hcall
      rcases GetIssueInfo_log env proj.ID s.log with h | h
      · rw [h] at hcall
        simp only [List.append_assoc] at hcall
        have := congrArg List.length hcall
        simp at this
      · rw [h] at hcall
        simp only [List.append_assoc, List.append_cancel_left_eq] at hcall
        cases t with
        | nil => simp at hcall
        | cons c t1 =>
          have := congrArg List.length hcall
          simp at this
    | none =>
      obtain ⟨info, resp, hinfo⟩ := GetIssueInfo_some_of_ok env proj.ID s.log hg
      rw [projectLoop_cons_ok env proj rest m s info resp _ hinfo] at hcall ⊢
      obtain ⟨calls1, hlog1, _, _⟩ := issueTypeLoop_log env proj.ID info.Values
        { resp := resp, err := none, log := s.log ++ [Call.issueTypes proj.ID] }
      have hinner := issueTypeLoop_fields env proj.ID info.Values
        { resp := resp, err := none, log := s.log ++ [Call.issueTypes proj.ID] }
      generalize issueTypeLoop env proj.ID info.Values
        { resp := resp, err := none, log := s.log ++ [Call.issueTypes proj.ID] } = res
        at hlog1 hinner hcall ⊢
      obtain ⟨added, calls2, hproj, hlog2⟩ := projectLoop_extends env rest
        { Expand := proj.Expand, Projects := m.Projects ++ [assembleProject proj res.1] } res.2
      have hsplit : Call.issueTypes proj.ID :: (calls1 ++ calls2) =
          t ++ Call.fields pid itId :: u := by
        rw [hlog2, hlog1] at hcall
        simpa using hcall
      cases t with
      | nil => simp at hsplit
      | cons c t1 =>
        simp only [List.cons_append, List.cons.injEq] at hsplit
        obtain ⟨hc, hrest⟩ := hsplit
        subst hc
        have hhist : s.log ++ Call.issueTypes proj.ID :: t1 =
            (s.log ++ [Call.issueTypes proj.ID]) ++ t1 := by simp
        rw [hhist] at hok ⊢
        have viaRest : ∀ a, t1 = calls1 ++ a → calls2 = a ++ Call.fields pid itId :: u →
            ∃ p ∈ (projectLoop env rest
                ({ Expand := proj.Expand,
                   Projects := m.Projects ++ [assembleProject proj res.1] }, res.2)).1.Projects,
              p.Id = pid ∧ ∃ it ∈ p.IssueTypes, it.Id = itId ∧
                it.Fields = some (buildFieldMap env
                  (env.doFields ((s.log ++ [Call.issueTypes proj.ID]) ++ t1) pid
                    itId).value.Values) := by
          intro a ha hb
          have hhist2 : (s.log ++ [Call.issueTypes proj.ID]) ++ t1 = res.2.log ++ a := by
            rw [hlog1, ha]
            simp
          rw [hhist2] at hok ⊢
          exact ih _ _ a (by rw [hlog2, hb]; simp) hok
        rcases List.append_eq_append_iff.mp hrest with ⟨a, ha, hb⟩ | ⟨c1, ha, hb⟩
        · exact viaRest a ha hb
        · cases c1 with
          | nil =>
            simp only [List.append_nil, List.nil_append] at ha hb
            exact viaRest [] (by simp [ha]) (by simp [hb])
          | cons c c2 =>
            simp only [List.cons_append, List.cons.injEq] at hb
            obtain ⟨hc, _⟩ := hb
            subst hc
            obtain ⟨hp, it, hmem, hid, hf⟩ := hinner t1 c2 pid itId
              (by rw [hlog1, ha]; simp) hok
            refine ⟨assembleProject proj res.1, ?_, by simp [assembleProject, hp], it,
              by simpa [assembleProject] using hmem, hid, hf⟩
            rw [hproj]
            simp

theorem ListProjects_log (env : Env) (query : String) (limit : Int) (expandIssueTypes : Bool)
    (log : List Call) :
    (ListProjects env query limit expandIssueTypes log).2.2.2 =
      log ++ [Call.listProjects (listQueryOptions expandIssueTypes)] := by
  unfold ListProjects
  rcases h : env.listWithOptions log (listQueryOptions expandIssueTypes) with ⟨pl, resp, err⟩
  cases err <;> cases pl <;> simp [h]

/-- When the aggregation returns a result, it is that of the outer loop run on some
listing from an empty result and the log holding the listing request. -/
theorem GetProjectInfoForPivotJiraVersion_some (env : Env) (options : Option GetQueryOptions)
    (log : List Call) (m : CreateMetaInfo)
    (hrun : (GetProjectInfoForPivotJiraVersion env options log).1 = some m) :
    ∃ pl resp,
      m = (projectLoop env pl
        ({ Expand := "", Projects := [] },
          { resp := resp, err := none,
            log := log ++ [Call.listProjects (listQueryOptions false)] })).1 ∧
      (GetProjectInfoForPivotJiraVersion env options log).2.2.2 =
        (projectLoop env pl
          ({ Expand := "", Projects := [] },
            { resp := resp, err := none,
              log := log ++ [Call.listProjects (listQueryOptions false)] })).2.log := by
  have hlog := ListProjects_log env "" (-1) false log
  unfold GetProjectInfoForPivotJiraVersion at hrun ⊢
  rcases h : ListProjects env "" (-1) false log with ⟨pl, resp, err, log1⟩
  rw [h] at hrun hlog
  simp only at hlog
  subst hlog
  cases err with
  | some e => simp at hrun
  | none =>
    simp only [Option.some.injEq] at hrun
    exact ⟨pl, resp, hrun.symm, rfl⟩

/-- The map built by lines 95-98 has as keys exactly the printed `fieldId` values of the
listed entries, each key once, and every key is mapped to the last entry of the listing
that carries it. -/
theorem buildFieldMap_last_entry_wins (env : Env) (values : List FieldValue) :
    (∀ k, k ∈ (buildFieldMap env values).keys ↔
      ∃ e ∈ values, env.sprintV (e.get "fieldId") = k) ∧
    (buildFieldMap env values).keys.Nodup ∧
    (∀ k, (buildFieldMap env values).get k =
      values.reverse.find? (fun e => env.sprintV (e.get "fieldId") == k)) := by
  have hget : ∀ k, (buildFieldMap env values).get k =
      values.reverse.find? (fun e => env.sprintV (e.get "fieldId") == k) := by
    intro k
    unfold buildFieldMap
    rw [foldl_set_get]
    simp [GoMap.get]
  refine ⟨?_, ?_, hget⟩
  · intro k
    rw [GoMap.mem_keys_iff, hget, List.find?_isSome]
    simp
  · unfold buildFieldMap
    exact foldl_set_nodup env values [] (by simp [GoMap.keys])

/-! ## Theorems on `client_server.go` -/

/-- C5: for every field listing that `GetProjectInfoForPivotJiraVersion` requested for an
issue type and that was answered without error, the result holds that issue type, under
its project, with a `Fields` map whose keys are exactly the printed `fieldId` values of the
entries returned, each key once, and in which every key is mapped to the last entry of
the listing that carries it. -/
theorem C5_field_map_last_entry_wins (env : Env) (options : Option GetQueryOptions)
    (log : List Call) (m : CreateMetaInfo) (t u : List Call) (pid itId : String)
    (hrun : (GetProjectInfoForPivotJiraVersion env options log).1 = some m)
    (hcall : (GetProjectInfoForPivotJiraVersion env options log).2.2.2 =
      log ++ t ++ Call.fields pid itId :: u)
    (hok : (env.doFields (log ++ t) pid itId).err = none) :
    ∃ p ∈ m.Projects, p.Id = pid ∧ ∃ it ∈ p.IssueTypes, it.Id = itId ∧
      ∃ fieldMap, it.Fields = some fieldMap ∧
        (∀ k, k ∈ fieldMap.keys ↔
          ∃ e ∈ (env.doFields (log ++ t) pid itId).value.Values,
            env.sprintV (e.get "fieldId") = k) ∧
        fieldMap.keys.Nodup ∧
        (∀ k, fieldMap.get k =
          (env.doFields (log ++ t) pid itId).value.Values.reverse.find?
            (fun e => env.sprintV (e.get "fieldId") == k)) := by
  obtain ⟨pl, resp, hm, hlog⟩ := GetProjectInfoForPivotJiraVersion_some env options log m hrun
  rw [hlog] at hcall
  obtain ⟨added, calls, _, hext⟩ := projectLoop_extends env pl { Expand := "", Projects := [] }
    { resp := resp, err := none, log := log ++ [Call.listProjects (listQueryOptions false)] }
  cases t with
  | nil =>
    rw [hext] at hcall
    simp at hcall
  | cons c t1 =>
    have hc : c = Call.listProjects (listQueryOptions false) := by
      rw [hext] at hcall
      simp only [List.append_assoc, List.append_cancel_left_eq, List.singleton_append,
        List.cons_append, List.cons.injEq] at hcall
      exact hcall.1.symm
    subst hc
    have hhist : log ++ Call.listProjects (listQueryOptions false) :: t1 =
        (log ++ [Call.listProjects (listQueryOptions false)]) ++ t1 := by simp
    rw [hhist] at hok hcall ⊢
    obtain ⟨p, hp, hpid, it, hit, hid, hf⟩ := projectLoop_fields env pl
      { Expand := "", Projects := [] }
      { resp := resp, err := none, log := log ++ [Call.listProjects (listQueryOptions false)] }
      t1 u pid itId hcall hok
    rw [← hm] at hp
    exact ⟨p, hp, hpid, it, hit, hid, _, hf, buildFieldMap_last_entry_wins env _⟩

/-- The field listing of issue type `1` of the sample deployment names `summary` twice: the
returned issue type maps `summary` to the later entry. -/
theorem C5_field_map_last_entry_wins_witness :
    sampleFieldMap.get "summary" =
      some [("fieldId", JSONValue.str "summary"), ("name", JSONValue.str "Summary")] ∧
    ∃ p ∈ sampleMeta.Projects, p.Id = "10000" ∧ ∃ it ∈ p.IssueTypes, it.Id = "1" ∧
      ∃ fieldMap, it.Fields = some fieldMap ∧
        (∀ k, k ∈ fieldMap.keys ↔
          ∃ e ∈ ((sampleEnv "9.2.1" []).doFields
              ([] ++ [Call.listProjects (listQueryOptions false), Call.issueTypes "10000"])
              "10000" "1").value.Values,
            (sampleEnv "9.2.1" []).sprintV (e.get "fieldId") = k) ∧
        fieldMap.keys.Nodup ∧
        (∀ k, fieldMap.get k =
          ((sampleEnv "9.2.1" []).doFields
              ([] ++ [Call.listProjects (listQueryOptions false), Call.issueTypes "10000"])
              "10000" "1").value.Values.reverse.find?
            (fun e => (sampleEnv "9.2.1" []).sprintV (e.get "fieldId") == k)) :=
  ⟨by decide,
    C5_field_map_last_entry_wins (sampleEnv "9.2.1" []) none [] sampleMeta
      [Call.listProjects (listQueryOptions false), Call.issueTypes "10000"]
      [Call.issueTypes "10001", Call.fields "10001" "2", Call.fields "10001" "3"]
      "10000" "1" (by decide) (by decide) rfl⟩


/-- C6: on a successful native listing, `ListProjects` returns the first `min(limit, M)`
projects in their order when `limit > 0` and all `M` projects when `limit <= 0`; an absent
listing gives the empty sequence; the error is nil and one listing call is logged. -/
theorem C6_ListProjects_truncates (env : Env) (query : String) (limit : Int)
    (expandIssueTypes : Bool) (log : List Call) (pList : Option (List Project))
    (resp : Option Response)
    (hlist : env.listWithOptions log (listQueryOptions expandIssueTypes) = (pList, resp, none)) :
    ListProjects env query limit expandIssueTypes log =
      ((match pList with
        | none => []
        | some l => if limit > 0 then l.take (min limit.toNat l.length) else l),
       resp, none, log ++ [Call.listProjects (listQueryOptions expandIssueTypes)]) := by
  rw [ListProjects_of_ok env query limit expandIssueTypes log pList resp hlist]
  cases pList with
  | none => simp
  | some l => simp

/-- C1: below the pivot the version probe is followed by exactly one call of the native
creation-metadata endpoint and by no listing, issue-type or field request, and a
successful native call has its `CreateMetaInfo` returned as it is, with a nil error. -/
theorem C1_native_path_below_pivot (env : Env) (options : Option GetQueryOptions)
    (log : List Call) (v : Version)
    (hreq : env.newRequest APIEndpointGetServerInfo = none)
    (hinfo : (env.doServerInfo log).err = none)
    (hv : env.semverMake (env.doServerInfo log).value.Version = .ok v)
    (hp : env.semverMake JiraVersionWithOldIssueAPIBreaking = .ok pivot900)
    (hlt : v.LT pivot900 = true) :
    (GetCreateMetaInfo env options log).2.2 =
      log ++ [Call.serverInfo, Call.createMeta options] ∧
    ∀ info resp,
      env.getCreateMetaWithOptions (log ++ [Call.serverInfo]) options = (info, resp, none) →
      GetCreateMetaInfo env options log =
        (info, none, log ++ [Call.serverInfo, Call.createMeta options]) := by
  unfold GetCreateMetaInfo
  simp only [hreq, hinfo, hv, hp, GetProjectInfo, hlt, ↓reduceIte]
  constructor
  · rcases hnat : env.getCreateMetaWithOptions (log ++ [Call.serverInfo]) options with
      ⟨info, resp, err⟩
    cases err <;> cases resp <;> simp [hnat]
  · intro info resp hnat
    simp [hnat]

/-- The native path at version 8.9.0 of the sample deployment. -/
theorem C1_native_path_below_pivot_witness :
    GetCreateMetaInfo (sampleEnv "8.9.0" []) none [] =
      (some { Expand := "native", Projects := [] }, none,
        [Call.serverInfo, Call.createMeta none]) :=
  (C1_native_path_below_pivot (sampleEnv "8.9.0" []) none []
    { Major := 8, Minor := 9, Patch := 0, Pre := [], Build := [] }
    rfl rfl rfl rfl (by decide)).2 _ _ rfl

/-- C7: when the metadata path chosen by `GetProjectInfo` (native or aggregated) fails
together with a response, `GetCreateMetaInfo` returns no metadata and a `RESTError` that
carries the status of that response; for 401 and 403 its message is
"not authorized to create issues", for any other status it holds the original error. -/
theorem C7_authorization_failure_translated (env : Env) (options : Option GetQueryOptions)
    (log : List Call) (v pivot : Version) (info : Option CreateMetaInfo) (resp : Response)
    (err : GoError) (log2 : List Call)
    (hreq : env.newRequest APIEndpointGetServerInfo = none)
    (hinfo : (env.doServerInfo log).err = none)
    (hv : env.semverMake (env.doServerInfo log).value.Version = .ok v)
    (hp : env.semverMake JiraVersionWithOldIssueAPIBreaking = .ok pivot)
    (hfail : GetProjectInfo env v pivot options (log ++ [Call.serverInfo]) =
      (info, some resp, some err, log2)) :
    ∃ e, GetCreateMetaInfo env options log =
        (none, some (GoError.rest e resp.StatusCode), log2) ∧
      (resp.StatusCode = 401 ∨ resp.StatusCode = 403 →
        e = GoError.new "not authorized to create issues" ∧
        (GoError.rest e resp.StatusCode).Error = "not authorized to create issues") ∧
      (¬ (resp.StatusCode = 401 ∨ resp.StatusCode = 403) → e = err) := by
  unfold GetCreateMetaInfo
  simp only [hreq, hinfo, hv, hp, hfail]
  by_cases hs : resp.StatusCode = 401 ∨ resp.StatusCode = 403
  · refine ⟨GoError.new "not authorized to create issues", ?_, fun _ => ⟨rfl, rfl⟩,
      fun h => absurd hs h⟩
    have hs1 : resp.StatusCode = StatusForbidden ∨ resp.StatusCode = StatusUnauthorized := by
      simpa [StatusForbidden, StatusUnauthorized, or_comm] using hs
    simp [hs1]
  · refine ⟨err, ?_, fun h => absurd h hs, fun _ => rfl⟩
    have hs1 : ¬ (resp.StatusCode = StatusForbidden ∨ resp.StatusCode = StatusUnauthorized) := by
      simpa [StatusForbidden, StatusUnauthorized, or_comm] using hs
    simp [hs1]

/-- The aggregated path at version 9.2.1 with a listing refused with status 403. -/
theorem C7_authorization_failure_translated_witness :
    ∃ e, GetCreateMetaInfo (sampleEnvFailing "9.2.1" 403) none [] =
        (none, some (GoError.rest e 403),
          [Call.serverInfo, Call.listProjects (listQueryOptions false)]) ∧
      e = GoError.new "not authorized to create issues" ∧
      (GoError.rest e 403).Error = "not authorized to create issues" :=
  let ⟨e, h1, h2, _⟩ :=
    C7_authorization_failure_translated (sampleEnvFailing "9.2.1" 403) none []
      { Major := 9, Minor := 2, Patch := 1, Pre := [], Build := [] } pivot900 none ⟨403⟩
      (GoError.withMessage (GoError.new "request failed") "failed to list projects")
      [Call.serverInfo, Call.listProjects (listQueryOptions false)]
      rfl rfl rfl rfl (by decide)
  ⟨e, h1, (h2 (Or.inr rfl)).1, (h2 (Or.inr rfl)).2⟩

/-- A listing of two projects cut to one by `limit = 1`. -/
theorem C6_ListProjects_truncates_witness :
    ListProjects (sampleEnv "9.2.1" []) "" 1 false [] =
      ([sampleProject "10000"], some ⟨200⟩, none, [Call.listProjects (listQueryOptions false)]) :=
  C6_ListProjects_truncates (sampleEnv "9.2.1" []) "" 1 false []
    (some [sampleProject "10000", sampleProject "10001"]) (some ⟨200⟩) rfl

/-- C2, as stated, fails: at version 9.2.1 with two projects of one and two issue types
and every sub-call succeeding, `GetCreateMetaInfo` issues seven requests, not the
`1 + P + sum = 6` of the specification, since the version probe and the project listing
both count. -/
theorem C2_request_count_counterexample :
    (GetCreateMetaInfo (sampleEnv "9.2.1" []) none []).2.1 = none ∧
    (GetCreateMetaInfo (sampleEnv "9.2.1" []) none []).1.map
      (fun m => m.Projects.map (fun p => p.IssueTypes.length)) = some [1, 2] ∧
    (GetCreateMetaInfo (sampleEnv "9.2.1" []) none []).2.2.length = 7 ∧
    ¬ ((GetCreateMetaInfo (sampleEnv "9.2.1" []) none []).2.2.length = 1 + 2 + (1 + 2)) := by
  decide

/-- C2, amended: at or above the pivot, when every sub-call succeeds, `GetCreateMetaInfo`
never calls the native creation-metadata endpoint; it issues the version probe, the project
listing and then, project by project, the issue-type listing followed by one field listing
for each issue type that listing returned.  The result holds one project per listed
project with the issue types returned for it, and the number of requests is `2 + P + sum`,
the sum being over the `P` projects of the number of issue types returned. -/
theorem C2_aggregated_path_request_count (env : Env) (options : Option GetQueryOptions)
    (log : List Call) (v : Version) (pList : Option (List Project)) (resp : Option Response)
    (hreq : ∀ e, env.newRequest e = none)
    (hinfo : (env.doServerInfo log).err = none)
    (hv : env.semverMake (env.doServerInfo log).value.Version = .ok v)
    (hp : env.semverMake JiraVersionWithOldIssueAPIBreaking = .ok pivot900)
    (hge : v.LT pivot900 = false)
    (hlist : env.listWithOptions (log ++ [Call.serverInfo]) (listQueryOptions false) =
      (pList, resp, none))
    (hissue : ∀ h p, (env.doIssueTypes h p).err = none)
    (hfields : ∀ h p i, (env.doFields h p i).err = none) :
    ∃ m calls, GetCreateMetaInfo env options log = (some m, none, log ++ calls) ∧
      calls = Call.serverInfo :: Call.listProjects (listQueryOptions false) ::
        aggregationCalls (pList.getD [])
          (listedIssueTypes env (pList.getD [])
            (log ++ [Call.serverInfo, Call.listProjects (listQueryOptions false)])) ∧
      (∀ o, Call.createMeta o ∉ calls) ∧
      m.Projects.map MetaProject.toProject = pList.getD [] ∧
      m.Projects.map (fun p => p.IssueTypes.map MetaIssueType.withoutFields) =
        (listedIssueTypes env (pList.getD [])
          (log ++ [Call.serverInfo, Call.listProjects (listQueryOptions false)])).map
          (fun l => l.map MetaIssueType.withoutFields) ∧
      calls.length = 2 + (pList.getD []).length +
        ((listedIssueTypes env (pList.getD [])
          (log ++ [Call.serverInfo, Call.listProjects (listQueryOptions false)])).map
          List.length).sum := by
  have hagg := GetProjectInfoForPivotJiraVersion_of_listing env options
    (log ++ [Call.serverInfo]) pList resp hlist
  have hall := projectLoop_all_ok env (pList.getD []) { Expand := "", Projects := [] }
    { resp := resp, err := none,
      log := log ++ [Call.serverInfo] ++ [Call.listProjects (listQueryOptions false)] }
    hreq hissue hfields
  have hlen := aggregationCalls_length (pList.getD [])
    (listedIssueTypes env (pList.getD [])
      (log ++ [Call.serverInfo, Call.listProjects (listQueryOptions false)]))
    (listedIssueTypes_length env _ _)
  have hsub := aggregationCalls_subCall (pList.getD [])
    (listedIssueTypes env (pList.getD [])
      (log ++ [Call.serverInfo, Call.listProjects (listQueryOptions false)]))
  generalize projectLoop env (pList.getD [])
    ({ Expand := "", Projects := [] },
      { resp := resp, err := none,
        log := log ++ [Call.serverInfo] ++ [Call.listProjects (listQueryOptions false)] }) = res
    at hagg hall
  simp only [List.append_assoc, List.singleton_append] at hall
  obtain ⟨hlog, added, hproj, hmap, hlisted⟩ := hall
  refine ⟨res.1, _, ?_, rfl, ?_, ?_, ?_, ?_⟩
  · unfold GetCreateMetaInfo
    simp only [hreq, hinfo, hv, hp, GetProjectInfo, hge, Bool.false_eq_true, ↓reduceIte, hagg,
      hlog]
    simp
  · intro o ho
    rcases List.mem_cons.mp ho with h | h
    · cases h
    · rcases List.mem_cons.mp h with h | h
      · cases h
      · have := hsub _ h
        simp [Call.isSubCall] at this
  · rw [hproj]
    simpa using hmap
  · rw [hproj]
    simpa using hlisted
  · simp only [List.length_cons, hlen]
    omega

/-- The aggregated path at the pivot version 9.0.0 itself: the listings return one and
two issue types for the two projects, and seven requests are issued. -/
theorem C2_aggregated_path_request_count_witness :
    pivot900.LT pivot900 = false ∧
    (listedIssueTypes (sampleEnv "9.0.0" [])
      ((some [sampleProject "10000", sampleProject "10001"]).getD [])
      ([] ++ [Call.serverInfo, Call.listProjects (listQueryOptions false)])).map List.length =
      [1, 2] ∧
    ∃ m calls, GetCreateMetaInfo (sampleEnv "9.0.0" []) none [] = (some m, none, [] ++ calls) ∧
      calls = Call.serverInfo :: Call.listProjects (listQueryOptions false) ::
        aggregationCalls ((some [sampleProject "10000", sampleProject "10001"]).getD [])
          (listedIssueTypes (sampleEnv "9.0.0" [])
            ((some [sampleProject "10000", sampleProject "10001"]).getD [])
            ([] ++ [Call.serverInfo, Call.listProjects (listQueryOptions false)])) ∧
      (∀ o, Call.createMeta o ∉ calls) ∧
      m.Projects.map MetaProject.toProject =
        (some [sampleProject "10000", sampleProject "10001"]).getD [] ∧
      m.Projects.map (fun p => p.IssueTypes.map MetaIssueType.withoutFields) =
        (listedIssueTypes (sampleEnv "9.0.0" [])
          ((some [sampleProject "10000", sampleProject "10001"]).getD [])
          ([] ++ [Call.serverInfo, Call.listProjects (listQueryOptions false)])).map
          (fun l => l.map MetaIssueType.withoutFields) ∧
      calls.length =
        2 + ((some [sampleProject "10000", sampleProject "10001"]).getD []).length +
          ((listedIssueTypes (sampleEnv "9.0.0" [])
            ((some [sampleProject "10000", sampleProject "10001"]).getD [])
            ([] ++ [Call.serverInfo, Call.listProjects (listQueryOptions false)])).map
            List.length).sum :=
  ⟨by decide, by decide,
    C2_aggregated_path_request_count (sampleEnv "9.0.0" []) none [] pivot900
      (some [sampleProject "10000", sampleProject "10001"]) (some ⟨200⟩)
      (fun _ => rfl) rfl rfl rfl (by decide) rfl (fun _ _ => by simp [sampleEnv])
      (fun _ _ _ => by simp [sampleEnv])⟩

/-- C4: after a successful listing, the projects returned by
`GetProjectInfoForPivotJiraVersion` are, position by position, an initial segment of the
listed projects (same `Id`, `Key`, `Name`, `Expand` and `Self`, in listing order), and
the whole listing when every per-project issue-type call succeeds. -/
theorem C4_projects_follow_listing (env : Env) (options : Option GetQueryOptions)
    (log : List Call) (pList : Option (List Project)) (resp : Option Response)
    (hlist : env.listWithOptions log (listQueryOptions false) = (pList, resp, none)) :
    ∃ m resp1 log1,
      GetProjectInfoForPivotJiraVersion env options log = (some m, resp1, none, log1) ∧
      m.Projects.map MetaProject.toProject <+: pList.getD [] ∧
      ((∀ q ∈ pList.getD [], ∀ h, (GetIssueInfo env q.ID h).2.2.1 = none) →
        m.Projects.map MetaProject.toProject = pList.getD []) := by
  obtain ⟨k, hk, hall⟩ := projectLoop_projects env (pList.getD [])
    { Expand := "", Projects := [] }
    { resp := resp, err := none, log := log ++ [Call.listProjects (listQueryOptions false)] }
  refine ⟨_, _, _, GetProjectInfoForPivotJiraVersion_of_listing env options log pList resp hlist,
    ?_, fun h => ?_⟩
  · rw [hk]
    simpa using List.take_prefix k (pList.getD [])
  · rw [hk]
    simpa using List.take_of_length_le (hall h)

/-- Both sample projects are returned, in listing order, although the field listing of
issue type `1` fails. -/
theorem C4_projects_follow_listing_witness :
    ∃ m resp1 log1,
      GetProjectInfoForPivotJiraVersion (sampleEnv "9.2.1" ["1"]) none [] =
        (some m, resp1, none, log1) ∧
      m.Projects.map MetaProject.toProject <+:
        (some [sampleProject "10000", sampleProject "10001"]).getD [] ∧
      m.Projects.map MetaProject.toProject =
        (some [sampleProject "10000", sampleProject "10001"]).getD [] :=
  let ⟨m, resp1, log1, h1, h2, h3⟩ :=
    C4_projects_follow_listing (sampleEnv "9.2.1" ["1"]) none []
      (some [sampleProject "10000", sampleProject "10001"]) (some ⟨200⟩) rfl
  ⟨m, resp1, log1, h1, h2, h3 (fun q hq h => by
    simp only [Option.getD_some, List.mem_cons, List.mem_singleton, List.not_mem_nil,
      or_false] at hq
    rcases hq with hq | hq <;> subst hq <;> rfl)⟩

/-- C3, what the code does when a field listing is the first sub-call to fail: the field
listing of issue type `1` of the first project fails, the `break` of lines 91-93 leaves
the inner loop only, the project is appended, three further sub-calls are issued for the
second project and both projects are returned with a nil error.  When instead the
issue-type listing of the first project fails, the `break` of lines 78-80 ends the
aggregation: no further sub-call, no project, nil error. -/
theorem C3_field_listing_failure_goes_on :
    ((sampleEnv "9.2.1" ["1"]).doFields
      [Call.listProjects (listQueryOptions false), Call.issueTypes "10000"] "10000" "1").err =
      some (GoError.new "boom") ∧
    (GetProjectInfoForPivotJiraVersion (sampleEnv "9.2.1" ["1"]) none []).2.2.2 =
      [Call.listProjects (listQueryOptions false), Call.issueTypes "10000",
        Call.fields "10000" "1", Call.issueTypes "10001", Call.fields "10001" "2",
        Call.fields "10001" "3"] ∧
    (GetProjectInfoForPivotJiraVersion (sampleEnv "9.2.1" ["1"]) none []).1.map
      (fun m => m.Projects.map (fun p => p.Id)) = some ["10000", "10001"] ∧
    (GetProjectInfoForPivotJiraVersion (sampleEnv "9.2.1" ["1"]) none []).2.2.1 = none ∧
    ¬ ((GetProjectInfoForPivotJiraVersion (sampleEnv "9.2.1" ["1"]) none []).2.2.2 =
        [Call.listProjects (listQueryOptions false), Call.issueTypes "10000",
          Call.fields "10000" "1"] ∧
      (GetProjectInfoForPivotJiraVersion (sampleEnv "9.2.1" ["1"]) none []).1.map
        (fun m => m.Projects) = some []) ∧
    (GetProjectInfoForPivotJiraVersion (sampleEnv "9.2.1" ["10000"]) none []).2.2.2 =
      [Call.listProjects (listQueryOptions false), Call.issueTypes "10000"] ∧
    (GetProjectInfoForPivotJiraVersion (sampleEnv "9.2.1" ["10000"]) none []).1.map
      (fun m => m.Projects) = some [] ∧
    (GetProjectInfoForPivotJiraVersion (sampleEnv "9.2.1" ["10000"]) none []).2.2.1 = none := by
  decide

/-! ## Lemmas on `httpOAuth1aComplete` -/

/-- The body either returns before the store load, leaving the store alone and making
neither an exchange nor a connection write, or it performs the load once, and then an
exchange or a connection write is only made when the load gave a credential without an
error. -/
theorem httpOAuth1aCompleteBody_shape {σ : Type} (env : PluginEnv σ) (r : HttpRequest)
    (instanceID : String) (w : World σ) :
    ∃ es, (httpOAuth1aCompleteBody env r instanceID w).2.log = w.log ++ es ∧
      (((httpOAuth1aCompleteBody env r instanceID w).2.store = w.store ∧
          ∀ e ∈ es, e.isQuiet = true) ∨
        ((httpOAuth1aCompleteBody env r instanceID w).2.store =
            (env.OneTimeLoadOauth1aTemporaryCredentials w.store r.MattermostUserId).2 ∧
          ((∃ e ∈ es, e.isQuiet = false) →
            ∃ c, (env.OneTimeLoadOauth1aTemporaryCredentials w.store
              r.MattermostUserId).1.1 = some c))) := by
  unfold httpOAuth1aCompleteBody
  simp only [World.record]
  repeat' split
  all_goals
    refine ⟨_, by simp only [List.append_assoc]; rfl, ?_⟩
  all_goals
    first
      | left; exact ⟨rfl, by simp [Effect.isQuiet, Effect.isAccessToken, Effect.isConnectUser]⟩
      | right; refine ⟨rfl, fun _ => ⟨_, by assumption⟩⟩
      | right; exact ⟨rfl, by simp [Effect.isQuiet, Effect.isAccessToken, Effect.isConnectUser]⟩

/-- The deferred function adds at most the rendering of the failure page, so the handler
as a whole has the shape of its body. -/
theorem httpOAuth1aComplete_shape {σ : Type} (env : PluginEnv σ) (r : HttpRequest)
    (instanceID : String) (w : World σ) :
    ∃ es, (httpOAuth1aComplete env r instanceID w).2.log = w.log ++ es ∧
      (((httpOAuth1aComplete env r instanceID w).2.store = w.store ∧
          ∀ e ∈ es, e.isQuiet = true) ∨
        ((httpOAuth1aComplete env r instanceID w).2.store =
            (env.OneTimeLoadOauth1aTemporaryCredentials w.store r.MattermostUserId).2 ∧
          ((∃ e ∈ es, e.isQuiet = false) →
            ∃ c, (env.OneTimeLoadOauth1aTemporaryCredentials w.store
              r.MattermostUserId).1.1 = some c))) := by
  obtain ⟨es, hlog, hshape⟩ := httpOAuth1aCompleteBody_shape env r instanceID w
  unfold httpOAuth1aComplete
  generalize httpOAuth1aCompleteBody env r instanceID w = res at hlog hshape
  obtain ⟨⟨status, err⟩, w1⟩ := res
  cases err with
  | none => exact ⟨es, hlog, hshape⟩
  | some err =>
    simp only at hlog hshape
    refine ⟨es ++ [Effect.respondSpecialTemplate status "Failed to connect to Jira."
      (capitalizeFirst err.Error)], by simp [World.record, hlog], ?_⟩
    simp only [World.record]
    rcases hshape with ⟨hst, hq⟩ | ⟨hst, hq⟩
    · left
      refine ⟨hst, fun e he => ?_⟩
      rcases List.mem_append.mp he with h | h
      · exact hq e h
      · rw [List.mem_singleton] at h
        subst h
        rfl
    · right
      refine ⟨hst, fun ⟨e, he, hne⟩ => hq ?_⟩
      rcases List.mem_append.mp he with h | h
      · exact ⟨e, h, hne⟩
      · rw [List.mem_singleton] at h
        subst h
        cases hne

/-- The body calls the token exchange at most once. -/
theorem httpOAuth1aCompleteBody_exchanges {σ : Type} (env : PluginEnv σ) (r : HttpRequest)
    (instanceID : String) (w : World σ) :
    ∃ es, (httpOAuth1aCompleteBody env r instanceID w).2.log = w.log ++ es ∧
      es.countP Effect.isAccessToken ≤ 1 := by
  unfold httpOAuth1aCompleteBody
  simp only [World.record]
  repeat' split
  all_goals
    refine ⟨_, by simp only [List.append_assoc]; rfl, ?_⟩
  all_goals simp [List.countP_cons, Effect.isAccessToken]

/-- One attempt, deferred function included, calls the token exchange at most once. -/
theorem httpOAuth1aComplete_exchanges {σ : Type} (env : PluginEnv σ) (r : HttpRequest)
    (instanceID : String) (w : World σ) :
    ((httpOAuth1aComplete env r instanceID w).2.log.drop w.log.length).countP
      Effect.isAccessToken ≤ 1 := by
  obtain ⟨es, hlog, hcount⟩ := httpOAuth1aCompleteBody_exchanges env r instanceID w
  unfold httpOAuth1aComplete
  generalize httpOAuth1aCompleteBody env r instanceID w = res at hlog
  obtain ⟨⟨status, err⟩, w1⟩ := res
  simp only at hlog
  cases err with
  | none =>
    simp only [hlog, List.drop_left]
    exact hcount
  | some err =>
    simp only [World.record, hlog, List.append_assoc, List.drop_left, List.countP_append]
    simpa [List.countP_cons, Effect.isAccessToken] using hcount

theorem get_filter_self {α : Type} (m : GoMap α) (k : String) :
    GoMap.get (m.filter (fun e => e.1 != k)) k = none := by
  unfold GoMap.get
  induction m with
  | nil => rfl
  | cons e m ih =>
    obtain ⟨a, b⟩ := e
    by_cases hak : a = k
    · subst hak
      simpa [List.filter_cons] using ih
    · have hne : (k == a) = false := by simpa using fun h => hak h.symm
      simp [List.filter_cons, hak, List.lookup_cons, hne, ih]

theorem get_filter_none {α : Type} (m : GoMap α) (k u : String) (h : m.get u = none) :
    GoMap.get (m.filter (fun e => e.1 != k)) u = none := by
  by_cases hu : u = k
  · subst hu
    exact get_filter_self m u
  · unfold GoMap.get at *
    rw [lookup_filter_ne m k u hu]
    exact h

/-- One attempt against the store of the spec: an identity without a credential stays
without one, and an attempt that makes an exchange or a connection write found a
credential for its identity and leaves none. -/
theorem httpOAuth1aComplete_consumes (env : PluginEnv TemporaryCredentialStore)
    (hstore : env.OneTimeLoadOauth1aTemporaryCredentials = consumeOnce) (r : HttpRequest)
    (instanceID : String) (w : World TemporaryCredentialStore) :
    (∀ u, w.store.get u = none →
      (httpOAuth1aComplete env r instanceID w).2.store.get u = none) ∧
    ((∃ e ∈ (httpOAuth1aComplete env r instanceID w).2.log.drop w.log.length,
        e.isQuiet = false) →
      w.store.get r.MattermostUserId ≠ none ∧
      (httpOAuth1aComplete env r instanceID w).2.store.get r.MattermostUserId = none) := by
  obtain ⟨es, hlog, hshape⟩ := httpOAuth1aComplete_shape env r instanceID w
  rw [hlog, List.drop_left]
  rw [hstore] at hshape
  rcases hshape with ⟨hst, hq⟩ | ⟨hst, hq⟩
  · refine ⟨fun u hu => by rw [hst]; exact hu, fun ⟨e, he, hne⟩ => ?_⟩
    rw [hq e he] at hne
    cases hne
  · refine ⟨fun u hu => ?_, fun hex => ?_⟩
    · rw [hst]
      exact get_filter_none w.store _ u hu
    · obtain ⟨c, hc⟩ := hq hex
      refine ⟨?_, ?_⟩
      · simp only [consumeOnce] at hc
        rw [hc]
        simp
      · rw [hst]
        exact get_filter_self w.store _

/-- An identity without a stored credential gets neither an exchange nor a connection
write in any sequence of attempts, and still has no credential afterwards. -/
theorem completionAttempts_quiet (env : PluginEnv TemporaryCredentialStore)
    (hstore : env.OneTimeLoadOauth1aTemporaryCredentials = consumeOnce)
    (attempts : List (HttpRequest × String)) (w : World TemporaryCredentialStore)
    (u : String) (hu : w.store.get u = none) :
    ∀ a ∈ (completionAttempts env attempts w).1, a.1.MattermostUserId = u →
      ∀ e ∈ a.2, e.isQuiet = true := by
  induction attempts generalizing w with
  | nil => simp [completionAttempts]
  | cons ri rest ih =>
    obtain ⟨r, instanceID⟩ := ri
    obtain ⟨hkeep, hex⟩ := httpOAuth1aComplete_consumes env hstore r instanceID w
    intro a ha hau e he
    simp only [completionAttempts, List.mem_cons] at ha
    rcases ha with ha | ha
    · subst ha
      simp only at hau he
      by_contra hne
      have hne1 : e.isQuiet = false := by simpa using hne
      have := (hex ⟨e, he, hne1⟩).1
      rw [hau] at this
      exact this hu
    · exact ih _ (hkeep u hu) a ha hau e he

/-! ## Theorems on `user_server.go` -/

/-- C8, what the code does: when the store load returns no error and either no
credential or a credential with an empty token, `errors.WithMessage` is applied to a nil
error and gives nil, so `httpOAuth1aComplete` returns status 500 with a nil error and the
deferred function renders nothing: the log ends with the store load. -/
theorem C8_missing_credential_not_rendered {σ : Type} (env : PluginEnv σ) (r : HttpRequest)
    (instanceID : String) (w : World σ) (inst : Instance) (requestToken verifier : String)
    (mmuser : MattermostUser) (cred : Option OAuth1aTemporaryCredentials)
    (hinst : env.LoadInstance w.log instanceID = .ok inst)
    (hcloud : inst.isCloudInstance = true)
    (hparse : env.ParseAuthorizationCallback r = (requestToken, verifier, none))
    (huid : r.MattermostUserId ≠ "")
    (huser : env.GetUser (w.log ++ [Effect.LoadInstance instanceID]) r.MattermostUserId =
      .ok mmuser)
    (hload : (env.OneTimeLoadOauth1aTemporaryCredentials w.store r.MattermostUserId).1 =
      (cred, none))
    (hcred : cred = none ∨ cred.map (fun c => c.Token) = some "") :
    httpOAuth1aComplete env r instanceID w =
      ((StatusInternalServerError, none),
        { store := (env.OneTimeLoadOauth1aTemporaryCredentials w.store r.MattermostUserId).2,
          log := w.log ++ [Effect.LoadInstance instanceID, Effect.GetUser r.MattermostUserId,
            Effect.OneTimeLoadOauth1aTemporaryCredentials r.MattermostUserId] }) := by
  unfold httpOAuth1aComplete httpOAuth1aCompleteBody
  simp only [World.record, hinst, hcloud, hparse, huid, huser, hload, Bool.true_eq_false,
    ↓reduceIte]
  rcases hcred with h | h
  · subst h
    simp [errorsWithMessage]
  · cases cred with
    | none => cases h
    | some c =>
      have hc : c.Token = "" := by simpa using h
      simp [hc, errorsWithMessage]

/-- The store returns neither a credential nor an error for user `u1`: status 500, nil
error, and no failure page among the calls. -/
theorem C8_missing_credential_not_rendered_witness :
    httpOAuth1aComplete (samplePluginEnvLoading (none, none)) (sampleRequest "u1" "tok") "i1"
        sampleWorld =
      ((500, none),
        { store := sampleWorld.store,
          log := [] ++ [Effect.LoadInstance "i1", Effect.GetUser "u1",
            Effect.OneTimeLoadOauth1aTemporaryCredentials "u1"] }) :=
  C8_missing_credential_not_rendered (samplePluginEnvLoading (none, none))
    (sampleRequest "u1" "tok") "i1" sampleWorld
    { ID := "i1", TypeName := "cloud", isCloudInstance := true } "tok" "v"
    { Id := "u1", Username := "u1" } none rfl rfl rfl (by decide) rfl rfl (Or.inl rfl)

theorem capitalizeFirst_mismatch :
    capitalizeFirst (GoError.new "request token mismatch").Error =
      utf8Bytes "Request token mismatch" := by
  decide

/-- C9: when the loaded credential has a non-empty token different from the request token
of the callback, the body fails with "request token mismatch" and status 401, the failure
page is rendered with that status, and the calls made are the instance load, the user
lookup, the store load and the rendering: no token exchange and no connection write. -/
theorem C9_token_mismatch_rejected {σ : Type} (env : PluginEnv σ) (r : HttpRequest)
    (instanceID : String) (w : World σ) (inst : Instance) (requestToken verifier : String)
    (mmuser : MattermostUser) (c : OAuth1aTemporaryCredentials)
    (hinst : env.LoadInstance w.log instanceID = .ok inst)
    (hcloud : inst.isCloudInstance = true)
    (hparse : env.ParseAuthorizationCallback r = (requestToken, verifier, none))
    (huid : r.MattermostUserId ≠ "")
    (huser : env.GetUser (w.log ++ [Effect.LoadInstance instanceID]) r.MattermostUserId =
      .ok mmuser)
    (hload : (env.OneTimeLoadOauth1aTemporaryCredentials w.store r.MattermostUserId).1 =
      (some c, none))
    (hnonempty : c.Token ≠ "")
    (hmismatch : c.Token ≠ requestToken) :
    (httpOAuth1aCompleteBody env r instanceID w).1 =
      (StatusUnauthorized, some (GoError.new "request token mismatch")) ∧
    (httpOAuth1aComplete env r instanceID w).2.log =
      w.log ++ [Effect.LoadInstance instanceID, Effect.GetUser r.MattermostUserId,
        Effect.OneTimeLoadOauth1aTemporaryCredentials r.MattermostUserId,
        Effect.respondSpecialTemplate StatusUnauthorized "Failed to connect to Jira."
          (utf8Bytes "Request token mismatch")] ∧
    (httpOAuth1aComplete env r instanceID w).1 =
      env.respondSpecialTemplate
        (w.log ++ [Effect.LoadInstance instanceID, Effect.GetUser r.MattermostUserId,
          Effect.OneTimeLoadOauth1aTemporaryCredentials r.MattermostUserId])
        "/other/message.html" StatusUnauthorized "text/html" "Failed to connect to Jira."
        (utf8Bytes "Request token mismatch") ∧
    ∀ e ∈ (httpOAuth1aComplete env r instanceID w).2.log.drop w.log.length,
      e.isAccessToken = false ∧ e.isConnectUser = false := by
  have hbody : httpOAuth1aCompleteBody env r instanceID w =
      ((StatusUnauthorized, some (GoError.new "request token mismatch")),
        { store := (env.OneTimeLoadOauth1aTemporaryCredentials w.store r.MattermostUserId).2,
          log := w.log ++ [Effect.LoadInstance instanceID, Effect.GetUser r.MattermostUserId,
            Effect.OneTimeLoadOauth1aTemporaryCredentials r.MattermostUserId] }) := by
    unfold httpOAuth1aCompleteBody
    simp only [World.record, hinst, hcloud, hparse, huid, huser, hload, Bool.true_eq_false,
      ↓reduceIte, hnonempty, hmismatch, ne_eq, not_false_eq_true]
    simp
  have hlog : (httpOAuth1aComplete env r instanceID w).2.log =
      w.log ++ [Effect.LoadInstance instanceID, Effect.GetUser r.MattermostUserId,
        Effect.OneTimeLoadOauth1aTemporaryCredentials r.MattermostUserId,
        Effect.respondSpecialTemplate StatusUnauthorized "Failed to connect to Jira."
          (utf8Bytes "Request token mismatch")] := by
    unfold httpOAuth1aComplete
    rw [hbody]
    simp [World.record, capitalizeFirst_mismatch]
  refine ⟨by rw [hbody], hlog, ?_, ?_⟩
  · unfold httpOAuth1aComplete
    rw [hbody]
    simp [capitalizeFirst_mismatch]
  · rw [hlog, List.drop_left]
    intro e he
    simp only [List.mem_cons, List.mem_singleton, List.not_mem_nil, or_false] at he
    rcases he with h | h | h | h <;> subst h <;> exact ⟨rfl, rfl⟩

/-- The callback of user `u1` carries the token `bad` while `tok` is stored. -/
theorem C9_token_mismatch_rejected_witness :
    (httpOAuth1aCompleteBody samplePluginEnv (sampleRequest "u1" "bad") "i1" sampleWorld).1 =
      (401, some (GoError.new "request token mismatch")) ∧
    (httpOAuth1aComplete samplePluginEnv (sampleRequest "u1" "bad") "i1" sampleWorld).2.log =
      [] ++ [Effect.LoadInstance "i1", Effect.GetUser "u1",
        Effect.OneTimeLoadOauth1aTemporaryCredentials "u1",
        Effect.respondSpecialTemplate 401 "Failed to connect to Jira."
          (utf8Bytes "Request token mismatch")] ∧
    (httpOAuth1aComplete samplePluginEnv (sampleRequest "u1" "bad") "i1" sampleWorld).1 =
      (401, none) :=
  have h := C9_token_mismatch_rejected samplePluginEnv (sampleRequest "u1" "bad") "i1"
    sampleWorld { ID := "i1", TypeName := "cloud", isCloudInstance := true } "bad" "v"
    { Id := "u1", Username := "u1" } { Token := "tok", Secret := "sec" }
    rfl rfl rfl (by decide) rfl rfl (by decide) (by decide)
  ⟨h.1, h.2.1, h.2.2.1⟩

theorem isQuiet_false_of_isAccessToken (e : Effect) (h : e.isAccessToken = true) :
    e.isQuiet = false := by
  simp [Effect.isQuiet, h]

theorem quiet_iff (e : Effect) :
    e.isQuiet = true ↔ e.isAccessToken = false ∧ e.isConnectUser = false := by
  simp [Effect.isQuiet]

theorem exchangeCount_zero (env : PluginEnv TemporaryCredentialStore)
    (hstore : env.OneTimeLoadOauth1aTemporaryCredentials = consumeOnce)
    (attempts : List (HttpRequest × String)) (w : World TemporaryCredentialStore)
    (u : String) (hu : w.store.get u = none) :
    exchangeCount u (completionAttempts env attempts w).1 = 0 := by
  unfold exchangeCount
  rw [List.sum_eq_zero]
  intro n hn
  obtain ⟨a, ha, rfl⟩ := List.mem_map.mp hn
  obtain ⟨hmem, hau⟩ := List.mem_filter.mp ha
  have hall := completionAttempts_quiet env hstore attempts w u hu a hmem (by simpa using hau)
  rw [List.countP_eq_zero]
  intro e he
  simp [((quiet_iff e).mp (hall e he)).1]

theorem exchangeCount_le_one (env : PluginEnv TemporaryCredentialStore)
    (hstore : env.OneTimeLoadOauth1aTemporaryCredentials = consumeOnce)
    (attempts : List (HttpRequest × String)) (w : World TemporaryCredentialStore)
    (u : String) :
    exchangeCount u (completionAttempts env attempts w).1 ≤ 1 := by
  induction attempts generalizing w with
  | nil => simp [completionAttempts, exchangeCount]
  | cons ri rest ih =>
    obtain ⟨r, instanceID⟩ := ri
    obtain ⟨_, hex⟩ := httpOAuth1aComplete_consumes env hstore r instanceID w
    have hone := httpOAuth1aComplete_exchanges env r instanceID w
    have ih1 := ih (httpOAuth1aComplete env r instanceID w).2
    simp only [completionAttempts]
    unfold exchangeCount at ih1 ⊢
    rw [List.filter_cons]
    split
    · rename_i hhead
      have hru : r.MattermostUserId = u := by simpa using hhead
      simp only [List.map_cons, List.sum_cons]
      by_cases hzero : ((httpOAuth1aComplete env r instanceID w).2.log.drop
          w.log.length).countP Effect.isAccessToken = 0
      · rw [hzero]
        simpa using ih1
      · obtain ⟨e, he, hacc⟩ := List.countP_pos_iff.mp (Nat.pos_of_ne_zero hzero)
        have hnone := (hex ⟨e, he, isQuiet_false_of_isAccessToken e hacc⟩).2
        rw [hru] at hnone
        have hrest := exchangeCount_zero env hstore rest
          (httpOAuth1aComplete env r instanceID w).2 u hnone
        unfold exchangeCount at hrest
        rw [hrest]
        simpa using hone
    · exact ih1

/-- C10: with the check-and-delete store of the spec, once an attempt has made the token
exchange, every later attempt for the same local identity, whatever its request token,
makes no token exchange and no connection write; and in any sequence of attempts the
number of `AccessToken` calls made for an identity is at most one, and zero for an
identity without a stored credential. -/
theorem C10_replay_protection (env : PluginEnv TemporaryCredentialStore)
    (hstore : env.OneTimeLoadOauth1aTemporaryCredentials = consumeOnce)
    (w : World TemporaryCredentialStore) (r1 : HttpRequest) (id1 : String)
    (later : List (HttpRequest × String))
    (hfirst : ∃ e ∈ (httpOAuth1aComplete env r1 id1 w).2.log.drop w.log.length,
      e.isAccessToken = true) :
    (∀ a ∈ (completionAttempts env later (httpOAuth1aComplete env r1 id1 w).2).1,
      a.1.MattermostUserId = r1.MattermostUserId →
      ∀ e ∈ a.2, e.isAccessToken = false ∧ e.isConnectUser = false) ∧
    (∀ attempts w0 u, exchangeCount u (completionAttempts env attempts w0).1 ≤ 1) ∧
    (∀ attempts w0 u, w0.store.get u = none →
      exchangeCount u (completionAttempts env attempts w0).1 = 0) := by
  refine ⟨?_, fun attempts w0 u => exchangeCount_le_one env hstore attempts w0 u,
    fun attempts w0 u hu => exchangeCount_zero env hstore attempts w0 u hu⟩
  obtain ⟨e, he, hacc⟩ := hfirst
  have hnone := ((httpOAuth1aComplete_consumes env hstore r1 id1 w).2
    ⟨e, he, isQuiet_false_of_isAccessToken e hacc⟩).2
  intro a ha hau e1 he1
  exact (quiet_iff e1).mp
    (completionAttempts_quiet env hstore later _ r1.MattermostUserId hnone a ha hau e1 he1)

/-- User `u1` completes the handshake with the stored token and then repeats the same
callback: the repeated attempt makes no exchange and no connection write, and the two
attempts together call `AccessToken` exactly once. -/
theorem C10_replay_protection_witness :
    (∀ a ∈ (completionAttempts samplePluginEnv [(sampleRequest "u1" "tok", "i1")]
        (httpOAuth1aComplete samplePluginEnv (sampleRequest "u1" "tok") "i1" sampleWorld).2).1,
      a.1.MattermostUserId = (sampleRequest "u1" "tok").MattermostUserId →
      ∀ e ∈ a.2, e.isAccessToken = false ∧ e.isConnectUser = false) ∧
    exchangeCount "u1" (completionAttempts samplePluginEnv
      [(sampleRequest "u1" "tok", "i1"), (sampleRequest "u1" "tok", "i1")] sampleWorld).1 = 1 :=
  have h := C10_replay_protection samplePluginEnv rfl sampleWorld (sampleRequest "u1" "tok")
    "i1" [(sampleRequest "u1" "tok", "i1")]
    ⟨Effect.AccessToken "tok" "sec" "v", by decide, rfl⟩
  ⟨h.1, by decide⟩

end JiraPlugin
